import Mathlib

/-!
Verification of the BackTest repository's core: the candle index engine
(`backdata_acquisition.py`) and the futures position ledger / risk evaluator
(`backtest_futures.py`).

Python floats are modelled as exact rationals (`ℚ`), timestamps as integers
(`ℤ`, milliseconds).  Python exceptions are modelled with `Except String`:
a raised exception is `Except.error`, normal completion is `Except.ok`.
Python dictionaries are modelled as association lists looked up by key.
-/

namespace BackTest

/-- One element of a `timeframe_data` list.  The source stores tuples
`(timestamp, open, high, low, close, volume, ...)`; `openTime` is index 0 of
the tuple and `rest` holds the numeric entries from index 1 on
(open, high, low, close, volume, ...). -/
structure Candle where
  openTime : ℤ
  rest : List ℚ
deriving DecidableEq, Repr

instance : Inhabited Candle := ⟨⟨0, []⟩⟩

/-- `BackDataAcquisition.FIELD_MAP`: field name to tuple index. -/
def fieldMap : List (String × Nat) :=
  [("open", 1), ("high", 2), ("low", 3), ("close", 4), ("volume", 5)]

/-- Engine state of `BackDataAcquisition`: the timeframe registry `tf_to_ms`,
the configured minimum timeframe, the configured current-data fields, and the
incremental index cache `_index_cache` (a dict keyed by strings). -/
structure AcqState where
  tfToMs : List (String × ℤ)
  minTimeframe : String
  fields : List String
  indexCache : List (String × ℤ)
deriving DecidableEq, Repr

/-- `BackDataAcquisition.__init__`: stores the configuration and starts with
an empty index cache.  The constructor performs no field validation. -/
def backDataAcquisitionInit (tfToMs : List (String × ℤ)) (minTimeframe : String)
    (fields : List String) : AcqState :=
  { tfToMs := tfToMs, minTimeframe := minTimeframe, fields := fields, indexCache := [] }

/-- `_validate_fields`: raises `ValueError` at the first field that is not a
key of `FIELD_MAP`. -/
def validateFields (fields : List String) : Except String Unit :=
  match fields.find? (fun f => (fieldMap.lookup f).isNone) with
  | some f => Except.error ("ValueError: Field not supported: " ++ f)
  | none => Except.ok ()

/-- `_is_candle_closed`: a timeframe missing from `tf_to_ms` prints a warning
and yields `false` (no exception); otherwise the candle is closed when
`current_timestamp >= candle_timestamp + timeframe_ms`. -/
def isCandleClosed (tfToMs : List (String × ℤ)) (candleTimestamp : ℤ)
    (timeframe : String) (currentTimestamp : ℤ) : Bool :=
  match tfToMs.lookup timeframe with
  | none => false
  | some timeframeMs => decide (currentTimestamp ≥ candleTimestamp + timeframeMs)

/-- The backwards scan of `_find_current_candle_index`: examines indices
`m - 1, m - 2, ..., 0` and returns the first index whose closed interval
`[open_time, open_time + timeframe_ms]` contains the target timestamp. -/
def findCurrentAux (data : List Candle) (timeframeMs target : ℤ) : Nat → Int
  | 0 => -1
  | Nat.succ i =>
    let candleStart := (data.getD i default).openTime
    if candleStart ≤ target ∧ target ≤ candleStart + timeframeMs then (i : Int)
    else findCurrentAux data timeframeMs target i

/-- `_find_current_candle_index`: index of the (possibly still open) candle
containing the timestamp, searching backwards from the end so that on an exact
boundary the later candle wins; `-1` for an empty list or an unknown
timeframe (the latter prints a warning, it does not raise). -/
def findCurrentCandleIndex (tfToMs : List (String × ℤ)) (data : List Candle)
    (target : ℤ) (timeframe : String) : Int :=
  if data.isEmpty then -1
  else
    match tfToMs.lookup timeframe with
    | none => -1
    | some timeframeMs => findCurrentAux data timeframeMs target data.length

/-- Floor-division bounds used for the binary-search midpoint
(Python's `//` is floor division, `Int.fdiv`). -/
theorem fdiv_two_bounds (a : ℤ) : 2 * Int.fdiv a 2 ≤ a ∧ a ≤ 2 * Int.fdiv a 2 + 1 := by
  rw [Int.fdiv_eq_ediv a (by norm_num)]
  omega

/-- The midpoint `(left + right) // 2` stays between `left` and `right`. -/
theorem mid_bounds (left right : ℤ) (h : left ≤ right) :
    left ≤ Int.fdiv (left + right) 2 ∧ Int.fdiv (left + right) 2 ≤ right := by
  have hb := fdiv_two_bounds (left + right)
  omega

/-- The `while left <= right` loop of `_binary_search_timestamp`, with the
closed-candle test abstracted as a predicate `p` on the probed index.
`result` carries the last index found closed. -/
def bsLoop (p : Nat → Bool) (left right result : ℤ) : ℤ :=
  if h : left ≤ right then
    let mid := Int.fdiv (left + right) 2
    if p mid.toNat then bsLoop p (mid + 1) right mid
    else bsLoop p left (mid - 1) result
  else result
termination_by (right + 1 - left).toNat
decreasing_by
  · have hb := mid_bounds left right h
    omega
  · have hb := mid_bounds left right h
    omega

/-- `_binary_search_timestamp`: rightmost index whose candle is closed at the
timestamp, `-1` when the list is empty or no candle is closed. -/
def binarySearchTimestamp (tfToMs : List (String × ℤ)) (data : List Candle)
    (timestamp : ℤ) (timeframe : String) : ℤ :=
  if data.isEmpty then -1
  else
    bsLoop (fun i => isCandleClosed tfToMs (data.getD i default).openTime timeframe timestamp)
      0 ((data.length : ℤ) - 1) (-1)

/-- The `for i in range(start_idx, len(data))` scan of
`_incremental_search_timestamp`: walks forward while the candle at `i` is
closed, remembering the last closed index, and stops at the first open one. -/
def forwardScan (p : Nat → Bool) : List Nat → ℤ → ℤ
  | [], result => result
  | i :: rest, result => if p i then forwardScan p rest (i : ℤ) else result

/-- `_incremental_search_timestamp` for one cache key: takes the cached index
for that key (`None` when absent, Python defaults it to 0) and returns the
found index together with the new cached value for the key (the cache is only
written when the result is non-negative). -/
def incrementalSearchTimestamp (tfToMs : List (String × ℤ)) (data : List Candle)
    (timestamp : ℤ) (timeframe : String) (cached : Option ℤ) : ℤ × Option ℤ :=
  if data.isEmpty then (-1, cached)
  else
    let start0 := cached.getD 0
    let startIdx := max 0 (min start0 ((data.length : ℤ) - 1))
    let result :=
      if startIdx > 0 ∧ (data.getD startIdx.toNat default).openTime > timestamp then
        binarySearchTimestamp tfToMs data timestamp timeframe
      else
        forwardScan (fun i => isCandleClosed tfToMs (data.getD i default).openTime timeframe timestamp)
          (List.range' startIdx.toNat (data.length - startIdx.toNat)) (-1)
    if result ≥ 0 then (result, some result) else (result, cached)

/-- `_find_timestamp_index`: binary search when forced, otherwise the
incremental search; the forced path leaves the cache entry untouched. -/
def findTimestampIndex (tfToMs : List (String × ℤ)) (data : List Candle)
    (timestamp : ℤ) (timeframe : String) (cached : Option ℤ) (forceBinarySearch : Bool) :
    ℤ × Option ℤ :=
  if forceBinarySearch then (binarySearchTimestamp tfToMs data timestamp timeframe, cached)
  else incrementalSearchTimestamp tfToMs data timestamp timeframe cached

/-- Python dict assignment `d[k] = v` on an association list: replaces the
value in place when the key exists, otherwise appends the pair. -/
def dictSet {β : Type} : List (String × β) → String → β → List (String × β)
  | [], k, v => [(k, v)]
  | (k0, v0) :: rest, k, v =>
    if k0 = k then (k, v) :: rest else (k0, v0) :: dictSet rest k v

/-- Python `d.update(upd)`: assigns every pair of `upd` into `d` in order. -/
def dictUpdate {β : Type} (d upd : List (String × β)) : List (String × β) :=
  upd.foldl (fun acc kv => dictSet acc kv.1 kv.2) d

/-- `_extract_current_data_fields`: pulls the configured fields out of a data
point by `FIELD_MAP` index, skipping unknown fields and indices beyond the
tuple length (`len(data_point) = 1 + rest.length`). -/
def extractCurrentDataFields (c : Candle) (fields : List String) : List (String × ℚ) :=
  fields.foldl
    (fun acc f =>
      match fieldMap.lookup f with
      | some idx => if idx < c.rest.length + 1 then acc ++ [(f, c.rest.getD (idx - 1) 0)] else acc
      | none => acc)
    []

/-- The `timeframe_data[start_idx:end_idx]` slice for fetched (historical)
data: `end_idx = final_idx + 1` and `start_idx` is 0 without a limit, else
`max(0, final_idx - limit + 1)`; an index of `-1` yields the empty window. -/
def historicalWindow (data : List Candle) (finalIdx : ℤ) (limit : Option ℤ) : List Candle :=
  if finalIdx ≥ 0 then
    let startIdx : ℤ :=
      match limit with
      | none => 0
      | some l => max 0 (finalIdx - l + 1)
    (data.drop startIdx.toNat).take (finalIdx + 1 - startIdx).toNat
  else []

/-- Cache key `f"single_{symbol}_{timeframe}"` of `acquire_single_symbol_data`. -/
def singleCacheKey (symbol timeframe : String) : String :=
  "single_" ++ symbol ++ "_" ++ timeframe

/-- Cache key `f"{symbol}_{timeframe}"` of `acquire_data`. -/
def dataCacheKey (symbol timeframe : String) : String :=
  symbol ++ "_" ++ timeframe

/-- The per-timeframe loop of `acquire_single_symbol_data`, threading the
index cache, the flat current-data fields and the fetched windows. -/
def acquireSingleLoop (tfToMs : List (String × ℤ)) (minTimeframe : String)
    (fields : List String) (symbol : String) (timestamp : ℤ) (limit : Option ℤ)
    (forceBinarySearch : Bool) :
    List (String × List Candle) → List (String × ℤ) → List (String × ℚ) →
    List (String × List Candle) →
    List (String × ℤ) × List (String × ℚ) × List (String × List Candle)
  | [], cache, currentFields, fetched => (cache, currentFields, fetched)
  | (tf, tfData) :: rest, cache, currentFields, fetched =>
    let key := singleCacheKey symbol tf
    let found := findTimestampIndex tfToMs tfData timestamp tf (cache.lookup key) forceBinarySearch
    let cache' :=
      match found.2 with
      | some v => dictSet cache key v
      | none => cache
    let currentFields' :=
      if tf = minTimeframe then
        let ci := findCurrentCandleIndex tfToMs tfData timestamp tf
        if ci ≥ 0 then
          dictUpdate currentFields (extractCurrentDataFields (tfData.getD ci.toNat default) fields)
        else currentFields
      else currentFields
    let fetched' := fetched ++ [(tf, historicalWindow tfData found.1 limit)]
    acquireSingleLoop tfToMs minTimeframe fields symbol timestamp limit forceBinarySearch
      rest cache' currentFields' fetched'

/-- The flat current-data dict of `acquire_single_symbol_data`
(`{"timestamp": ts, field: value, ...}`). -/
structure CurrentData where
  timestamp : ℤ
  fields : List (String × ℚ)
deriving DecidableEq, Repr

/-- `acquire_single_symbol_data`: validates the configured fields (raising on
the first unsupported one), then resolves every timeframe of the symbol's
data, extracting the current candle's fields for the minimum timeframe and
slicing the closed-candle window for each timeframe. -/
def acquireSingleSymbolData (st : AcqState) (symbol : String)
    (data : List (String × List Candle)) (timestamp : ℤ) (limit : Option ℤ)
    (forceBinarySearch : Bool) :
    Except String (CurrentData × List (String × List Candle) × AcqState) :=
  match validateFields st.fields with
  | Except.error e => Except.error e
  | Except.ok _ =>
    let r := acquireSingleLoop st.tfToMs st.minTimeframe st.fields symbol timestamp limit
      forceBinarySearch data st.indexCache [] []
    Except.ok (⟨timestamp, r.2.1⟩, r.2.2, { st with indexCache := r.1 })

/-- The per-timeframe loop of `acquire_data` for one symbol: like
`acquireSingleLoop` but with cache keys `f"{symbol}_{timeframe}"` and the
symbol's current fields assigned (not merged) when the minimum timeframe has
a current candle. -/
def acquireTimeframesLoop (tfToMs : List (String × ℤ)) (minTimeframe : String)
    (fields : List String) (symbol : String) (timestamp : ℤ) (limit : Option ℤ)
    (forceBinarySearch : Bool) :
    List (String × List Candle) → List (String × ℤ) → Option (List (String × ℚ)) →
    List (String × List Candle) →
    List (String × ℤ) × Option (List (String × ℚ)) × List (String × List Candle)
  | [], cache, currentOfSymbol, fetched => (cache, currentOfSymbol, fetched)
  | (tf, tfData) :: rest, cache, currentOfSymbol, fetched =>
    let key := dataCacheKey symbol tf
    let found := findTimestampIndex tfToMs tfData timestamp tf (cache.lookup key) forceBinarySearch
    let cache' :=
      match found.2 with
      | some v => dictSet cache key v
      | none => cache
    let currentOfSymbol' :=
      if tf = minTimeframe then
        let ci := findCurrentCandleIndex tfToMs tfData timestamp tf
        if ci ≥ 0 then
          some (extractCurrentDataFields (tfData.getD ci.toNat default) fields)
        else currentOfSymbol
      else currentOfSymbol
    let fetched' := fetched ++ [(tf, historicalWindow tfData found.1 limit)]
    acquireTimeframesLoop tfToMs minTimeframe fields symbol timestamp limit forceBinarySearch
      rest cache' currentOfSymbol' fetched'

/-- The per-symbol loop of `acquire_data`: a symbol appears in the current
data only when its minimum-timeframe series has a current candle. -/
def acquireSymbolsLoop (tfToMs : List (String × ℤ)) (minTimeframe : String)
    (fields : List String) (timestamp : ℤ) (limit : Option ℤ) (forceBinarySearch : Bool) :
    List (String × List (String × List Candle)) → List (String × ℤ) →
    List (String × List (String × ℚ)) → List (String × List (String × List Candle)) →
    List (String × ℤ) × List (String × List (String × ℚ)) ×
      List (String × List (String × List Candle))
  | [], cache, currentAssoc, fetchedAssoc => (cache, currentAssoc, fetchedAssoc)
  | (symbol, symbolData) :: rest, cache, currentAssoc, fetchedAssoc =>
    let r := acquireTimeframesLoop tfToMs minTimeframe fields symbol timestamp limit
      forceBinarySearch symbolData cache none []
    let currentAssoc' :=
      match r.2.1 with
      | some cf => currentAssoc ++ [(symbol, cf)]
      | none => currentAssoc
    let fetchedAssoc' := fetchedAssoc ++ [(symbol, r.2.2)]
    acquireSymbolsLoop tfToMs minTimeframe fields timestamp limit forceBinarySearch
      rest r.1 currentAssoc' fetchedAssoc'

/-- The multi-symbol current-data dict of `acquire_data`
(`{"timestamp": ts, symbol: {field: value, ...}, ...}`). -/
structure MultiCurrentData where
  timestamp : ℤ
  symbols : List (String × List (String × ℚ))
deriving DecidableEq, Repr

/-- `acquire_data`: field validation, then the per-symbol resolution loop. -/
def acquireData (st : AcqState) (data : List (String × List (String × List Candle)))
    (timestamp : ℤ) (limit : Option ℤ) (forceBinarySearch : Bool) :
    Except String (MultiCurrentData × List (String × List (String × List Candle)) × AcqState) :=
  match validateFields st.fields with
  | Except.error e => Except.error e
  | Except.ok _ =>
    let r := acquireSymbolsLoop st.tfToMs st.minTimeframe st.fields timestamp limit
      forceBinarySearch data st.indexCache [] []
    Except.ok (⟨timestamp, r.2.1⟩, r.2.2, { st with indexCache := r.1 })

/-- `reset_cache`: clears the index cache. -/
def resetCache (st : AcqState) : AcqState :=
  { st with indexCache := [] }

/-- An open position of `BackTestFutures.opening_positions`.  `entryTime` is
the ledger's `self.now` at opening, a formatted time string (`none` models
Python's `None` before the first tick). -/
structure Position where
  symbol : String
  positionType : String
  leverage : ℚ
  amount : ℚ
  entryTime : Option String
  entryPrice : ℚ
  stopLossPrice : Option ℚ
  takeProfitPrice : Option ℚ
deriving DecidableEq, Repr

/-- One row appended to the profit-record CSV by `close_position`. -/
structure TradeRecord where
  symbol : String
  positionType : String
  entryTime : Option String
  entryPrice : ℚ
  exitTime : Option String
  exitPrice : ℚ
  exitReason : String
  amount : ℚ
  leverage : ℚ
  pnl : ℚ
  pnlPct : ℚ
  winFlag : Bool
deriving DecidableEq, Repr

/-- The tick snapshot dict handed to `update_data`:
`{"timestamp": ts, symbol: {"open": ..., "high": ..., "low": ...}, ...}`.
The per-symbol entries are modelled as association lists because a symbol's
dict may lack fields. -/
structure TickData where
  timestamp : ℤ
  symbols : List (String × List (String × ℚ))
deriving DecidableEq, Repr

/-- The mutable state of a `BackTestFutures` instance (the CSV file is
modelled as the in-memory list `records`; `show_info` printing is dropped). -/
structure FuturesState where
  useBalance : Bool
  balance : ℚ
  usingBalance : ℚ
  data : Option TickData
  now : Option String
  openingPositions : List Position
  records : List TradeRecord
deriving DecidableEq, Repr

/-- `BackTestFutures.__init__`: initial balance, no margin in use, no data,
no current time, no positions. -/
def initState (initialBalance : ℚ) : FuturesState :=
  { useBalance := true, balance := initialBalance, usingBalance := 0,
    data := none, now := none, openingPositions := [], records := [] }

/-- `import_opening_positions` (key validation aside): appends the given
positions without touching the balances. -/
def importOpeningPositions (st : FuturesState) (positions : List Position) : FuturesState :=
  { st with openingPositions := st.openingPositions ++ positions }

/-- `get_price`: raises when no data was set or the symbol is absent,
otherwise the symbol's `"open"` field (a `KeyError` when that field is
missing from the symbol's dict). -/
def getPrice (st : FuturesState) (symbol : String) : Except String ℚ :=
  match st.data with
  | none => Except.error ("ValueError: Data not initialized")
  | some d =>
    match d.symbols.lookup symbol with
    | none => Except.error ("ValueError: Symbol " ++ symbol ++ " not found in data")
    | some symbolFields =>
      match symbolFields.lookup ("open") with
      | none => Except.error ("KeyError: open")
      | some v => Except.ok v

/-- The stop-loss sanity guard at the top of `place_market_order`: `true`
means the order is dropped (printed and returned), an error is a raised
exception from `get_price`. -/
def stopLossGuardRejects (st : FuturesState) (symbol positionType : String) :
    Option ℚ → Except String Bool
  | none => Except.ok false
  | some sl =>
    if positionType = "LONG" then
      match getPrice st symbol with
      | Except.error e => Except.error e
      | Except.ok price => Except.ok (decide (sl ≥ price))
    else if positionType = "SHORT" then
      match getPrice st symbol with
      | Except.error e => Except.error e
      | Except.ok price => Except.ok (decide (sl ≤ price))
    else Except.ok false

/-- The take-profit sanity guard of `place_market_order`. -/
def takeProfitGuardRejects (st : FuturesState) (symbol positionType : String) :
    Option ℚ → Except String Bool
  | none => Except.ok false
  | some tp =>
    if positionType = "LONG" then
      match getPrice st symbol with
      | Except.error e => Except.error e
      | Except.ok price => Except.ok (decide (tp ≤ price))
    else if positionType = "SHORT" then
      match getPrice st symbol with
      | Except.error e => Except.error e
      | Except.ok price => Except.ok (decide (tp ≥ price))
    else Except.ok false

/-- `place_market_order` from the balance check on (lines 179-203): rejects
as a no-op when `balance - using_balance < amount / leverage`, otherwise
records the position at the current price and adds `amount / leverage` to the
margin in use.  A zero leverage is Python's `ZeroDivisionError` in the
balance check; a side other than LONG/SHORT raises `ValueError`. -/
def acceptOrder (st : FuturesState) (symbol positionType : String)
    (leverage amount : ℚ) (stopLossPrice takeProfitPrice : Option ℚ) :
    Except String FuturesState :=
  if leverage = 0 then Except.error ("ZeroDivisionError: division by zero")
  else if st.balance - st.usingBalance < amount / leverage then Except.ok st
  else
    match getPrice st symbol with
    | Except.error e => Except.error e
    | Except.ok price =>
      if positionType = "LONG" ∨ positionType = "SHORT" then
        Except.ok { st with
          openingPositions := st.openingPositions ++
            [{ symbol := symbol, positionType := positionType, leverage := leverage,
               amount := amount, entryTime := st.now, entryPrice := price,
               stopLossPrice := stopLossPrice, takeProfitPrice := takeProfitPrice }],
          usingBalance :=
            if st.useBalance then st.usingBalance + amount / leverage else st.usingBalance }
      else Except.error ("ValueError: position_type must be LONG or SHORT")

/-- `place_market_order`: the two sanity guards, then the balance-checked
acceptance. -/
def placeMarketOrder (st : FuturesState) (symbol positionType : String)
    (leverage amount : ℚ) (stopLossPrice takeProfitPrice : Option ℚ) :
    Except String FuturesState :=
  match stopLossGuardRejects st symbol positionType stopLossPrice with
  | Except.error e => Except.error e
  | Except.ok true => Except.ok st
  | Except.ok false =>
    match takeProfitGuardRejects st symbol positionType takeProfitPrice with
    | Except.error e => Except.error e
    | Except.ok true => Except.ok st
    | Except.ok false =>
      acceptOrder st symbol positionType leverage amount stopLossPrice takeProfitPrice

/-- `exit_price = price if price is not None else self.get_price(symbol)`. -/
def resolveExitPrice (st : FuturesState) (symbol : String) : Option ℚ → Except String ℚ
  | some pr => Except.ok pr
  | none => getPrice st symbol

/-- `close_position`: finds the first open position matching `(symbol,
position_type)` (`next(...)`), a no-op when none matches.  The PnL is
`(exit_price - entry_price) * (amount / entry_price)`, negated unless the
side is LONG, minus the fee `amount * 0.001`; the percentage divides by the
margin `amount / leverage`.  Zero entry price, leverage or amount are
Python's `ZeroDivisionError`s in those expressions.  The record row is
appended, the position removed (`list.remove`, first equal element) and, when
`use_balance` is set, the PnL added to the balance and the margin released. -/
def closePosition (st : FuturesState) (symbol positionType : String)
    (price : Option ℚ) (exitReason : String) : Except String FuturesState :=
  match st.openingPositions.find?
      (fun p => p.symbol == symbol && p.positionType == positionType) with
  | none => Except.ok st
  | some p =>
    match resolveExitPrice st symbol price with
    | Except.error e => Except.error e
    | Except.ok exitPrice =>
      if p.entryPrice = 0 then Except.error ("ZeroDivisionError: division by zero")
      else if p.leverage = 0 then Except.error ("ZeroDivisionError: division by zero")
      else if p.amount = 0 then Except.error ("ZeroDivisionError: float division by zero")
      else
        let rawPnl := (exitPrice - p.entryPrice) * (p.amount / p.entryPrice)
        let signedPnl := if p.positionType = "LONG" then rawPnl else -rawPnl
        let pnl := signedPnl - p.amount * (1 / 1000)
        let pnlPct := pnl / (p.amount / p.leverage) * 100
        let row : TradeRecord :=
          { symbol := symbol, positionType := positionType, entryTime := p.entryTime,
            entryPrice := p.entryPrice, exitTime := st.now, exitPrice := exitPrice,
            exitReason := exitReason, amount := p.amount, leverage := p.leverage,
            pnl := pnl, pnlPct := pnlPct, winFlag := decide (pnl > 0) }
        Except.ok { st with
          openingPositions := st.openingPositions.erase p,
          records := st.records ++ [row],
          balance := if st.useBalance then st.balance + pnl else st.balance,
          usingBalance :=
            if st.useBalance then st.usingBalance - p.amount / p.leverage
            else st.usingBalance }

/-- The LONG branch's take-profit check. -/
def longTakeProfit (p : Position) (high : ℚ) : Option (String × ℚ) :=
  match p.takeProfitPrice with
  | some tp => if high ≥ tp then some (("take_profit", tp)) else none
  | none => none

/-- The SHORT branch's take-profit check. -/
def shortTakeProfit (p : Position) (low : ℚ) : Option (String × ℚ) :=
  match p.takeProfitPrice with
  | some tp => if low ≤ tp then some (("take_profit", tp)) else none
  | none => none

/-- The LONG branch of `check_stop_loss_take_profit` for one position:
liquidation at `entry_price * (1 - 1/leverage)` first, else stop-loss, else
take-profit.  The result is the exit reason and the trigger price, `none`
when nothing fires; zero leverage is Python's `ZeroDivisionError` in the
liquidation price. -/
def longTrigger (p : Position) (high low : ℚ) : Except String (Option (String × ℚ)) :=
  if p.leverage = 0 then Except.error ("ZeroDivisionError: division by zero")
  else
    let liquidationPrice := p.entryPrice * (1 - 1 / p.leverage)
    if low ≤ liquidationPrice then Except.ok (some (("liquidation", liquidationPrice)))
    else
      match p.stopLossPrice with
      | some sl =>
        if low ≤ sl then Except.ok (some (("stop_loss", sl)))
        else Except.ok (longTakeProfit p high)
      | none => Except.ok (longTakeProfit p high)

/-- The SHORT branch of `check_stop_loss_take_profit` for one position:
liquidation at `entry_price * (1 + 1/leverage)` first, else stop-loss, else
take-profit. -/
def shortTrigger (p : Position) (high low : ℚ) : Except String (Option (String × ℚ)) :=
  if p.leverage = 0 then Except.error ("ZeroDivisionError: division by zero")
  else
    let liquidationPrice := p.entryPrice * (1 + 1 / p.leverage)
    if high ≥ liquidationPrice then Except.ok (some (("liquidation", liquidationPrice)))
    else
      match p.stopLossPrice with
      | some sl =>
        if high ≥ sl then Except.ok (some (("stop_loss", sl)))
        else Except.ok (shortTakeProfit p low)
      | none => Except.ok (shortTakeProfit p low)

/-- Which exit condition fires for one position given its symbol's current
`high`/`low`: the LONG or SHORT branch by side, nothing for any other side. -/
def evalTrigger (p : Position) (high low : ℚ) : Except String (Option (String × ℚ)) :=
  if p.positionType = "LONG" then longTrigger p high low
  else if p.positionType = "SHORT" then shortTrigger p high low
  else Except.ok none

/-- The body of the `for position in self.opening_positions` loop for one
non-skipped position: reads `self.data[symbol]["high"]` / `["low"]` (a
`KeyError` when the symbol or field is absent, a `TypeError` when no data was
set) and closes the position at the trigger price when a condition fires. -/
def checkOnePosition (st : FuturesState) (p : Position) : Except String FuturesState :=
  match st.data with
  | none => Except.error ("TypeError: NoneType is not subscriptable")
  | some d =>
    match d.symbols.lookup p.symbol with
    | none => Except.error ("KeyError: " ++ p.symbol)
    | some symbolFields =>
      match symbolFields.lookup ("high") with
      | none => Except.error ("KeyError: high")
      | some high =>
        match symbolFields.lookup ("low") with
        | none => Except.error ("KeyError: low")
        | some low =>
          match evalTrigger p high low with
          | Except.error e => Except.error e
          | Except.ok none => Except.ok st
          | Except.ok (some (reason, triggerPrice)) =>
            closePosition st p.symbol p.positionType (some triggerPrice) reason

/-- Python's `for position in self.opening_positions` with in-loop removal:
the iterator keeps a numeric index `i` that advances by one each iteration
and is compared against the CURRENT length of the (mutated) list, so closing
the element at `i` makes the loop skip the element that slid into `i`.
Positions whose `entry_time` equals `self.now` are skipped without being
evaluated.  `fuel` only bounds the recursion; `check_stop_loss_take_profit`
supplies the list length, which the loop can never exceed because `i` grows
each step while the list never grows. -/
def checkLoop (fuel : ℕ) (st : FuturesState) (i : ℕ) : Except String FuturesState :=
  match fuel with
  | 0 => Except.ok st
  | Nat.succ fuel' =>
    if h : i < st.openingPositions.length then
      let p := st.openingPositions.get ⟨i, h⟩
      if p.entryTime = st.now then checkLoop fuel' st (i + 1)
      else
        match checkOnePosition st p with
        | Except.error e => Except.error e
        | Except.ok st' => checkLoop fuel' st' (i + 1)
    else Except.ok st

/-- `check_stop_loss_take_profit`: scan the open positions as Python's
`for` statement does. -/
def checkStopLossTakeProfit (st : FuturesState) : Except String FuturesState :=
  checkLoop st.openingPositions.length st 0

/-- `update_data`: stores the snapshot, runs the risk check (with `self.now`
still the PREVIOUS tick's time), then sets `self.now` from the snapshot's
timestamp.  `formattedNow` abstracts
`datetime.fromtimestamp(timestamp / 1000, tz).strftime(...)` applied to
`d.timestamp`. -/
def updateData (st : FuturesState) (d : TickData) (formattedNow : String) :
    Except String FuturesState :=
  let st1 := { st with data := some d }
  match checkStopLossTakeProfit st1 with
  | Except.error e => Except.error e
  | Except.ok st2 => Except.ok { st2 with now := some formattedNow }

/-- `fetch_usdt_balance`. -/
def fetchUsdtBalance (st : FuturesState) : ℚ × ℚ × ℚ :=
  (st.balance - st.usingBalance, st.usingBalance, st.balance)

/-- One driver-visible operation on the ledger. -/
inductive LedgerOp where
  | tick (d : TickData) (formattedNow : String)
  | openOrder (symbol positionType : String) (leverage amount : ℚ)
      (stopLoss takeProfit : Option ℚ)
  | close (symbol positionType : String) (price : Option ℚ) (reason : String)
deriving DecidableEq, Repr

/-- Apply one operation. -/
def applyOp (st : FuturesState) : LedgerOp → Except String FuturesState
  | LedgerOp.tick d formattedNow => updateData st d formattedNow
  | LedgerOp.openOrder symbol positionType leverage amount sl tp =>
    placeMarketOrder st symbol positionType leverage amount sl tp
  | LedgerOp.close symbol positionType price reason =>
    closePosition st symbol positionType price reason

/-- Run a sequence of operations, stopping at the first raised exception. -/
def runOps : FuturesState → List LedgerOp → Except String FuturesState
  | st, [] => Except.ok st
  | st, op :: rest =>
    match applyOp st op with
    | Except.error e => Except.error e
    | Except.ok st' => runOps st' rest

/-- The margin bound in the currently open positions. -/
def sumMargin (ps : List Position) : ℚ :=
  (ps.map (fun p => p.amount / p.leverage)).sum

/-- The PnL `close_position` computes for a position at an exit price. -/
def closePnl (q : Position) (exitPrice : ℚ) : ℚ :=
  (if q.positionType = "LONG"
    then (exitPrice - q.entryPrice) * (q.amount / q.entryPrice)
    else -((exitPrice - q.entryPrice) * (q.amount / q.entryPrice))) - q.amount * (1 / 1000)

/-- The CSV row `close_position` appends. -/
def closeRow (st : FuturesState) (symbol positionType : String) (exitPrice : ℚ)
    (reason : String) (q : Position) : TradeRecord :=
  { symbol := symbol, positionType := positionType, entryTime := q.entryTime,
    entryPrice := q.entryPrice, exitTime := st.now, exitPrice := exitPrice,
    exitReason := reason, amount := q.amount, leverage := q.leverage,
    pnl := closePnl q exitPrice,
    pnlPct := closePnl q exitPrice / (q.amount / q.leverage) * 100,
    winFlag := decide (closePnl q exitPrice > 0) }

/-- The state `close_position` leaves after closing position `q`. -/
def closedState (st : FuturesState) (symbol positionType : String) (exitPrice : ℚ)
    (reason : String) (q : Position) : FuturesState :=
  { st with
    openingPositions := st.openingPositions.erase q,
    records := st.records ++ [closeRow st symbol positionType exitPrice reason q],
    balance := if st.useBalance then st.balance + closePnl q exitPrice else st.balance,
    usingBalance :=
      if st.useBalance then st.usingBalance - q.amount / q.leverage else st.usingBalance }

/-- At most one open position per `(symbol, side)` pair — the Series/Position
data-model invariant the spec states for the ledger. -/
def keyUnique (ps : List Position) : Prop :=
  ps.Pairwise (fun a b => (a.symbol, a.positionType) ≠ (b.symbol, b.positionType))

/-! ### Concrete fixtures used by witnesses and counterexamples -/

/-- A registry with only the 5-minute timeframe (300 000 ms). -/
def tfRegistry : List (String × ℤ) := [("5m", 300000)]

/-- The spec's example series: candles opening at 0 and 300000. -/
def candle0 : Candle := ⟨0, [100, 105, 95, 102]⟩

def candle1 : Candle := ⟨300000, [102, 110, 98, 108]⟩

def sampleSeries : List Candle := [candle0, candle1]

/-- Two LONG positions on different symbols, both under water at the next
tick (leverage 10, entry 100, so liquidation at 90). -/
def positionA : Position := ⟨"A", "LONG", 10, 100, some ("t0"), 100, none, none⟩

def positionB : Position := ⟨"B", "LONG", 10, 100, some ("t0"), 100, none, none⟩

/-- A snapshot whose lows liquidate both `positionA` and `positionB`. -/
def snapshotAB : TickData :=
  ⟨600000,
   [("A", [("open", 100), ("high", 100), ("low", 1)]),
    ("B", [("open", 100), ("high", 100), ("low", 1)])]⟩

/-- Ledger state holding `positionA` then `positionB`, with both triggered by
`snapshotAB` and neither opened at the current tick. -/
def stateC2 : FuturesState :=
  { useBalance := true, balance := 1000, usingBalance := 20, data := some snapshotAB,
    now := some ("t1"), openingPositions := [positionA, positionB], records := [] }

/-- LONG, entry 100, amount 1000 — the spec's PnL example. -/
def positionLong1000 : Position := ⟨"A", "LONG", 10, 1000, some ("t0"), 100, none, none⟩

def positionShort1000 : Position := ⟨"A", "SHORT", 10, 1000, some ("t0"), 100, none, none⟩

def stateLong : FuturesState :=
  { useBalance := true, balance := 1000, usingBalance := 100, data := some snapshotAB,
    now := some ("t1"), openingPositions := [positionLong1000], records := [] }

def stateShort : FuturesState :=
  { useBalance := true, balance := 1000, usingBalance := 100, data := some snapshotAB,
    now := some ("t1"), openingPositions := [positionShort1000], records := [] }

/-- The state `close_position` reaches from `stateLong` at exit price 110. -/
def stateLongClosed : FuturesState :=
  closedState stateLong ("A") "LONG" 110 ("manual_close") positionLong1000

/-- The spec's liquidation-priority example: leverage 10 (liquidation at 90%
of entry), stop-loss at 95% of entry. -/
def positionC3 : Position := ⟨"A", "LONG", 10, 1000, some ("t0"), 100, some 95, none⟩

/-- A position opened at the current tick (`entry_time = now`): the snapshot
lows would liquidate it, yet the scan must skip it. -/
def positionFresh : Position := ⟨"A", "LONG", 10, 100, some ("t1"), 100, none, none⟩

def stateC4 : FuturesState :=
  { useBalance := true, balance := 1000, usingBalance := 10, data := some snapshotAB,
    now := some ("t1"), openingPositions := [positionFresh], records := [] }

instance : Inhabited Position := ⟨⟨"", "", 0, 0, none, 0, none, none⟩⟩

/-- The account invariant: margin in use is the margin of the open
positions (with balance tracking enabled, the construction default). -/
def ledgerInv (st : FuturesState) : Prop :=
  st.useBalance = true ∧ st.usingBalance = sumMargin st.openingPositions

/-- A position on a symbol absent from `snapshotAB`, opened at an earlier
tick, so the scan must fetch its (missing) high/low. -/
def positionMissing : Position := ⟨"C", "LONG", 10, 100, some ("t0"), 100, none, none⟩

def stateC10 : FuturesState :=
  { useBalance := true, balance := 1000, usingBalance := 10, data := some snapshotAB,
    now := some ("t1"), openingPositions := [positionMissing], records := [] }

/-- A two-operation driver run: one tick, then one accepted market order. -/
def opsC9 : List LedgerOp :=
  [LedgerOp.tick snapshotAB ("t1"),
   LedgerOp.openOrder ("A") "LONG" 10 100 none none]

/-- The state after `opsC9`'s tick. -/
def stateTick : FuturesState :=
  { useBalance := true, balance := 1000, usingBalance := 0, data := some snapshotAB,
    now := some ("t1"), openingPositions := [], records := [] }

/-- The state after all of `opsC9`. -/
def stateC9 : FuturesState :=
  { useBalance := true, balance := 1000, usingBalance := 0 + 100 / 10,
    data := some snapshotAB, now := some ("t1"), openingPositions := [positionFresh],
    records := [] }

deriving instance DecidableEq for Except

/-! ### Lemmas about the binary-search loop -/

theorem bsLoop_step_true {p : Nat → Bool} {l r res : ℤ} (hle : l ≤ r)
    (hp : p (Int.fdiv (l + r) 2).toNat = true) :
    bsLoop p l r res = bsLoop p (Int.fdiv (l + r) 2 + 1) r (Int.fdiv (l + r) 2) := by
  rw [bsLoop]
  simp only [dif_pos hle, hp, if_true]

theorem bsLoop_step_false {p : Nat → Bool} {l r res : ℤ} (hle : l ≤ r)
    (hp : p (Int.fdiv (l + r) 2).toNat = false) :
    bsLoop p l r res = bsLoop p l (Int.fdiv (l + r) 2 - 1) res := by
  rw [bsLoop]
  simp only [dif_pos hle, hp, Bool.false_eq_true, if_false]

theorem bsLoop_exit {p : Nat → Bool} {l r res : ℤ} (hle : ¬ l ≤ r) :
    bsLoop p l r res = res := by
  rw [bsLoop]
  simp only [dif_neg hle]

/-- Invariant-based characterisation of `bsLoop`: for a predicate that is
downward closed on `[0, n)`, the loop started in a consistent state returns
the rightmost index of `[0, n)` satisfying the predicate, or `-1` when there
is none. -/
theorem bsLoop_spec (p : Nat → Bool) (n : ℕ)
    (hdc : ∀ i j : ℕ, i ≤ j → j < n → p j = true → p i = true)
    (left right result : ℤ)
    (h0 : 0 ≤ left) (hlr : left ≤ right + 1) (hrn : right ≤ (n : ℤ) - 1)
    (hbelow : ∀ i : ℕ, (i : ℤ) < left → p i = true)
    (habove : ∀ i : ℕ, right < (i : ℤ) → i < n → p i = false)
    (hres : result = left - 1) :
    (bsLoop p left right result = -1 ∧ ∀ i : ℕ, i < n → p i = false) ∨
    (0 ≤ bsLoop p left right result ∧ bsLoop p left right result ≤ (n : ℤ) - 1 ∧
      p (bsLoop p left right result).toNat = true ∧
      ∀ i : ℕ, bsLoop p left right result < (i : ℤ) → i < n → p i = false) := by
  by_cases hle : left ≤ right
  · have hmid := mid_bounds left right hle
    cases hp : p (Int.fdiv (left + right) 2).toNat with
    | true =>
      rw [bsLoop_step_true hle hp]
      apply bsLoop_spec p n hdc (Int.fdiv (left + right) 2 + 1) right
        (Int.fdiv (left + right) 2)
      · omega
      · omega
      · omega
      · intro i hi
        by_cases hil : (i : ℤ) < left
        · exact hbelow i hil
        · apply hdc i (Int.fdiv (left + right) 2).toNat
          · omega
          · omega
          · exact hp
      · exact habove
      · ring
    | false =>
      rw [bsLoop_step_false hle hp]
      apply bsLoop_spec p n hdc left (Int.fdiv (left + right) 2 - 1) result
      · omega
      · omega
      · omega
      · exact hbelow
      · intro i hi hin
        by_cases hir : right < (i : ℤ)
        · exact habove i hir hin
        · cases hq : p i with
          | false => rfl
          | true =>
            have := hdc (Int.fdiv (left + right) 2).toNat i (by omega) hin hq
            rw [this] at hp
            exact absurd hp (by simp)
      · exact hres
  · rw [bsLoop_exit hle]
    by_cases hzero : left = 0
    · left
      constructor
      · omega
      · intro i hin
        apply habove i (by omega) hin
    · right
      have hresnn : 0 ≤ result := by omega
      have htn : ((result.toNat : ℤ)) = result := Int.toNat_of_nonneg hresnn
      refine ⟨hresnn, by omega, ?_, ?_⟩
      · apply hbelow
        omega
      · intro i hi hin
        apply habove i (by omega) hin
termination_by (right + 1 - left).toNat
decreasing_by
  · omega
  · omega

/-- A predicate that never holds leaves the loop's running result behind. -/
theorem bsLoop_const_false {p : Nat → Bool} (hf : ∀ i, p i = false)
    (l r res : ℤ) : bsLoop p l r res = res := by
  by_cases hle : l ≤ r
  · have hmid := mid_bounds l r hle
    rw [bsLoop_step_false hle (hf _)]
    exact bsLoop_const_false hf l (Int.fdiv (l + r) 2 - 1) res
  · exact bsLoop_exit hle
termination_by (r + 1 - l).toNat
decreasing_by
  omega

/-- A forward scan whose predicate never holds returns its running result. -/
theorem forwardScan_const_false {p : Nat → Bool} (hf : ∀ i, p i = false) :
    ∀ (idxs : List Nat) (res : ℤ), forwardScan p idxs res = res := by
  intro idxs res
  cases idxs with
  | nil => rfl
  | cons i rest =>
    show (if p i then forwardScan p rest (i : ℤ) else res) = res
    rw [hf i]
    simp

/-! ### Lemmas about the candle index engine -/

/-- Strictly increasing open times, stated on `getD`. -/
theorem openTime_mono {data : List Candle}
    (hsort : data.Pairwise (fun a b => a.openTime < b.openTime))
    {i j : ℕ} (hij : i < j) (hj : j < data.length) :
    (data.getD i default).openTime < (data.getD j default).openTime := by
  have hi : i < data.length := lt_trans hij hj
  rw [List.getD_eq_getElem data default hi, List.getD_eq_getElem data default hj]
  have := List.pairwise_iff_get.mp hsort ⟨i, hi⟩ ⟨j, hj⟩ hij
  simpa using this

/-- `_is_candle_closed` on a registered timeframe is the closed-interval
test. -/
theorem isCandleClosed_eq {tfToMs : List (String × ℤ)} {tf : String} {dur : ℤ}
    (hdur : tfToMs.lookup tf = some dur) (t ts : ℤ) :
    isCandleClosed tfToMs t tf ts = decide (ts ≥ t + dur) := by
  unfold isCandleClosed
  rw [hdur]

theorem isEmpty_false_of_lt_length {data : List Candle} {i : ℕ}
    (hi : i < data.length) : data.isEmpty = false := by
  cases data with
  | nil => simp at hi
  | cons a l => rfl

/-- At a timestamp exactly equal to candle `i`'s close time, the binary
search of `_binary_search_timestamp` returns exactly `i`. -/
theorem binarySearch_at_close_time
    {tfToMs : List (String × ℤ)} {tf : String} {dur : ℤ} {data : List Candle}
    {ts : ℤ} {i : ℕ}
    (hdur : tfToMs.lookup tf = some dur)
    (hsort : data.Pairwise (fun a b => a.openTime < b.openTime))
    (hi : i < data.length)
    (hts : ts = (data.getD i default).openTime + dur) :
    binarySearchTimestamp tfToMs data ts tf = (i : ℤ) := by
  have hne := isEmpty_false_of_lt_length hi
  unfold binarySearchTimestamp
  rw [hne]
  simp only [Bool.false_eq_true, if_false]
  have hp : ∀ j : ℕ, isCandleClosed tfToMs (data.getD j default).openTime tf ts
      = decide (ts ≥ (data.getD j default).openTime + dur) := by
    intro j
    exact isCandleClosed_eq hdur _ _
  have hpi : isCandleClosed tfToMs (data.getD i default).openTime tf ts = true := by
    rw [hp i]
    simp [hts]
  have habovei : ∀ j : ℕ, i < j → j < data.length →
      isCandleClosed tfToMs (data.getD j default).openTime tf ts = false := by
    intro j hij hj
    rw [hp j]
    have hmono := openTime_mono hsort hij hj
    simp only [decide_eq_false_iff_not]
    omega
  have hdc : ∀ a b : ℕ, a ≤ b → b < data.length →
      isCandleClosed tfToMs (data.getD b default).openTime tf ts = true →
      isCandleClosed tfToMs (data.getD a default).openTime tf ts = true := by
    intro a b hab hb hpb
    rw [hp b] at hpb
    rw [hp a]
    simp only [decide_eq_true_eq] at hpb ⊢
    rcases Nat.lt_or_ge a b with hlt | hge
    · have hmono := openTime_mono hsort hlt hb
      omega
    · have hab' : a = b := by omega
      rw [hab']
      exact hpb
  have hspec := bsLoop_spec
    (fun k => isCandleClosed tfToMs (data.getD k default).openTime tf ts)
    data.length hdc 0 ((data.length : ℤ) - 1) (-1)
    (by omega) (by omega) (by omega)
    (by intro j hj; omega)
    (by intro j hj1 hj2; omega)
    (by omega)
  rcases hspec with ⟨hr, hall⟩ | ⟨hr0, hrlt, hpr, hmax⟩
  · have := hall i hi
    simp only [] at this
    rw [hpi] at this
    exact absurd this (by simp)
  · set r := bsLoop (fun k => isCandleClosed tfToMs (data.getD k default).openTime tf ts)
      0 ((data.length : ℤ) - 1) (-1) with hrdef
    rcases lt_trichotomy r (i : ℤ) with hlt | heq | hgt
    · have := hmax i hlt hi
      simp only [] at this
      rw [hpi] at this
      exact absurd this (by simp)
    · exact heq
    · have hrn : i < r.toNat := by omega
      have hrlen : r.toNat < data.length := by omega
      have := habovei r.toNat hrn hrlen
      simp only [] at hpr
      rw [this] at hpr
      exact absurd hpr (by simp)

/-- The last element of the slice `data[s : i + 1]` is `data[i]`. -/
theorem slice_getLast (data : List Candle) (s k i : ℕ) (hs : s ≤ i)
    (hi : i < data.length) (hk : k = i + 1 - s) :
    ((data.drop s).take k).getLast? = some (data.getD i default) := by
  rw [List.getLast?_eq_getElem?]
  have hlen : ((data.drop s).take k).length = k := by
    rw [List.length_take, List.length_drop]
    omega
  rw [hlen]
  have hk1 : k - 1 = i - s := by omega
  rw [hk1, List.getElem?_take, if_pos (by omega), List.getElem?_drop]
  have hsi : s + (i - s) = i := by omega
  rw [hsi, List.getElem?_eq_getElem hi, List.getD_eq_getElem data default hi]

/-- The historical window around a valid final index always ends with the
resolved candle (for no limit, or any limit of at least one). -/
theorem historicalWindow_getLast (data : List Candle) (i : ℕ) (limit : Option ℤ)
    (hi : i < data.length) (hlim : ∀ l, limit = some l → 1 ≤ l) :
    (historicalWindow data (i : ℤ) limit).getLast? = some (data.getD i default) := by
  unfold historicalWindow
  rw [if_pos (by omega : (i : ℤ) ≥ 0)]
  cases limit with
  | none =>
    simp only
    apply slice_getLast data 0 _ i (by omega) hi
    omega
  | some l =>
    have hl := hlim l rfl
    simp only
    have hm0 : (0 : ℤ) ≤ max 0 ((i : ℤ) - l + 1) := le_max_left 0 _
    have hmi : max 0 ((i : ℤ) - l + 1) ≤ (i : ℤ) := by
      apply max_le
      · omega
      · omega
    apply slice_getLast data _ _ i (by omega) hi
    omega

/-- The backwards scan returns index `t` when candle `t` contains the target
and no later examined index does. -/
theorem findCurrentAux_eq (data : List Candle) (dur ts : ℤ) (t : ℕ)
    (hcont : (data.getD t default).openTime ≤ ts ∧
      ts ≤ (data.getD t default).openTime + dur) :
    ∀ m : ℕ, t < m → m ≤ data.length →
      (∀ j : ℕ, t < j → j < m →
        ¬((data.getD j default).openTime ≤ ts ∧
          ts ≤ (data.getD j default).openTime + dur)) →
      findCurrentAux data dur ts m = (t : ℤ) := by
  intro m
  induction m with
  | zero =>
    intro h1 h2 h3
    omega
  | succ m ih =>
    intro h1 h2 h3
    simp only [findCurrentAux]
    by_cases hm : t = m
    · subst hm
      rw [if_pos hcont]
    · have hmt : t < m := by omega
      rw [if_neg (h3 m hmt (by omega))]
      exact ih hmt (by omega) (fun j hj1 hj2 => h3 j hj1 (by omega))

/-- When the timestamp is exactly the shared boundary of candles `i` and
`i + 1`, `_find_current_candle_index` picks the later candle `i + 1`. -/
theorem findCurrent_at_boundary
    {tfToMs : List (String × ℤ)} {tf : String} {dur : ℤ} {data : List Candle}
    {ts : ℤ} {i : ℕ}
    (hdur : tfToMs.lookup tf = some dur) (hdpos : 0 ≤ dur)
    (hsort : data.Pairwise (fun a b => a.openTime < b.openTime))
    (h2 : i + 1 < data.length)
    (hb : (data.getD (i + 1) default).openTime = ts) :
    findCurrentCandleIndex tfToMs data ts tf = ((i + 1 : ℕ) : ℤ) := by
  have hne := isEmpty_false_of_lt_length h2
  unfold findCurrentCandleIndex
  rw [hne]
  simp only [Bool.false_eq_true, if_false]
  rw [hdur]
  apply findCurrentAux_eq data dur ts (i + 1)
  · constructor
    · omega
    · omega
  · omega
  · omega
  · intro j hj1 hj2 hcontra
    have hmono := openTime_mono hsort hj1 hj2
    omega

/-! ### Lemmas about the position ledger -/

theorem closePosition_none_eq (st : FuturesState) (symbol positionType : String)
    (price : Option ℚ) (reason : String)
    (hfind : st.openingPositions.find?
      (fun p => p.symbol == symbol && p.positionType == positionType) = none) :
    closePosition st symbol positionType price reason = Except.ok st := by
  unfold closePosition
  rw [hfind]

theorem closePosition_some_eq (st : FuturesState) (symbol positionType : String)
    (pr : ℚ) (reason : String) (q : Position)
    (hfind : st.openingPositions.find?
      (fun p => p.symbol == symbol && p.positionType == positionType) = some q)
    (h1 : q.entryPrice ≠ 0) (h2 : q.leverage ≠ 0) (h3 : q.amount ≠ 0) :
    closePosition st symbol positionType (some pr) reason =
      Except.ok (closedState st symbol positionType pr reason q) := by
  unfold closePosition
  rw [hfind]
  show (match resolveExitPrice st symbol (some pr) with
    | Except.error e => Except.error e
    | Except.ok exitPrice => _) = _
  rw [show resolveExitPrice st symbol (some pr) = Except.ok pr from rfl]
  rw [if_neg h1, if_neg h2, if_neg h3]
  rfl

/-- Every successful `close_position` is a no-op or the canonical closed
state of the found position. -/
theorem closePosition_ok_shape (st st' : FuturesState) (symbol positionType : String)
    (price : Option ℚ) (reason : String)
    (h : closePosition st symbol positionType price reason = Except.ok st') :
    st' = st ∨
    ∃ q exitPrice,
      st.openingPositions.find?
        (fun p => p.symbol == symbol && p.positionType == positionType) = some q ∧
      resolveExitPrice st symbol price = Except.ok exitPrice ∧
      q.entryPrice ≠ 0 ∧ q.leverage ≠ 0 ∧ q.amount ≠ 0 ∧
      st' = closedState st symbol positionType exitPrice reason q := by
  unfold closePosition at h
  cases hfind : st.openingPositions.find?
      (fun p => p.symbol == symbol && p.positionType == positionType) with
  | none =>
    rw [hfind] at h
    injection h with h
    exact Or.inl h.symm
  | some q =>
    rw [hfind] at h
    cases hre : resolveExitPrice st symbol price with
    | error e =>
      rw [hre] at h
      exact absurd h (by simp)
    | ok exitPrice =>
      rw [hre] at h
      simp only [] at h
      by_cases hc1 : q.entryPrice = 0
      · rw [if_pos hc1] at h
        exact absurd h (by simp)
      · rw [if_neg hc1] at h
        by_cases hc2 : q.leverage = 0
        · rw [if_pos hc2] at h
          exact absurd h (by simp)
        · rw [if_neg hc2] at h
          by_cases hc3 : q.amount = 0
          · rw [if_pos hc3] at h
            exact absurd h (by simp)
          · rw [if_neg hc3] at h
            injection h with h
            refine Or.inr ⟨q, exitPrice, rfl, rfl, hc1, hc2, hc3, ?_⟩
            rw [← h]
            rfl

/-! ### Claim C3: exit-condition priority -/

/-- Claim C3: for every evaluated LONG position liquidation
(`low ≤ entry_price * (1 - 1/leverage)`) is checked first and pre-empts
stop-loss and take-profit, else stop-loss fires on `low ≤ stop_loss_price`,
else take-profit on `high ≥ take_profit_price`; symmetrically for SHORT with
liquidation at `entry_price * (1 + 1/leverage)`; at most one exit condition
fires, in that priority order, and a firing close exits at the trigger
price, not at the snapshot's open. -/
theorem c3_trigger_priority (p : Position) (high low : ℚ) (hlev : p.leverage ≠ 0) :
    (p.positionType = "LONG" →
      ((low ≤ p.entryPrice * (1 - 1 / p.leverage) →
        evalTrigger p high low =
          Except.ok (some (("liquidation", p.entryPrice * (1 - 1 / p.leverage))))) ∧
       (¬ low ≤ p.entryPrice * (1 - 1 / p.leverage) →
        ∀ sl, p.stopLossPrice = some sl → low ≤ sl →
          evalTrigger p high low = Except.ok (some (("stop_loss", sl)))) ∧
       (¬ low ≤ p.entryPrice * (1 - 1 / p.leverage) →
        (∀ sl, p.stopLossPrice = some sl → ¬ low ≤ sl) →
        ∀ tp, p.takeProfitPrice = some tp → high ≥ tp →
          evalTrigger p high low = Except.ok (some (("take_profit", tp)))) ∧
       (¬ low ≤ p.entryPrice * (1 - 1 / p.leverage) →
        (∀ sl, p.stopLossPrice = some sl → ¬ low ≤ sl) →
        (∀ tp, p.takeProfitPrice = some tp → ¬ high ≥ tp) →
          evalTrigger p high low = Except.ok none))) ∧
    (p.positionType = "SHORT" →
      ((high ≥ p.entryPrice * (1 + 1 / p.leverage) →
        evalTrigger p high low =
          Except.ok (some (("liquidation", p.entryPrice * (1 + 1 / p.leverage))))) ∧
       (¬ high ≥ p.entryPrice * (1 + 1 / p.leverage) →
        ∀ sl, p.stopLossPrice = some sl → high ≥ sl →
          evalTrigger p high low = Except.ok (some (("stop_loss", sl)))) ∧
       (¬ high ≥ p.entryPrice * (1 + 1 / p.leverage) →
        (∀ sl, p.stopLossPrice = some sl → ¬ high ≥ sl) →
        ∀ tp, p.takeProfitPrice = some tp → low ≤ tp →
          evalTrigger p high low = Except.ok (some (("take_profit", tp)))) ∧
       (¬ high ≥ p.entryPrice * (1 + 1 / p.leverage) →
        (∀ sl, p.stopLossPrice = some sl → ¬ high ≥ sl) →
        (∀ tp, p.takeProfitPrice = some tp → ¬ low ≤ tp) →
          evalTrigger p high low = Except.ok none))) ∧
    (∀ (st st' : FuturesState) (symbol positionType : String) (price : ℚ) (reason : String),
      closePosition st symbol positionType (some price) reason = Except.ok st' →
      st' ≠ st →
      ∃ row : TradeRecord, st'.records = st.records ++ [row] ∧ row.exitPrice = price) := by
  refine ⟨?_, ?_, ?_⟩
  · intro hL
    have hev : evalTrigger p high low = longTrigger p high low := by
      unfold evalTrigger
      rw [if_pos hL]
    refine ⟨?_, ?_, ?_, ?_⟩
    · intro hliq
      rw [hev]
      unfold longTrigger
      rw [if_neg hlev, if_pos hliq]
    · intro hliq sl hsl hlow
      rw [hev]
      unfold longTrigger
      rw [if_neg hlev, if_neg hliq, hsl]
      simp only [if_pos hlow]
    · intro hliq hnosl tp htp hhigh
      rw [hev]
      unfold longTrigger
      rw [if_neg hlev, if_neg hliq]
      cases hsl : p.stopLossPrice with
      | none =>
        simp only [longTakeProfit, htp, if_pos hhigh]
      | some sl =>
        simp only [if_neg (hnosl sl hsl), longTakeProfit, htp, if_pos hhigh]
    · intro hliq hnosl hnotp
      rw [hev]
      unfold longTrigger
      rw [if_neg hlev, if_neg hliq]
      cases hsl : p.stopLossPrice with
      | none =>
        cases htp : p.takeProfitPrice with
        | none => simp only [longTakeProfit, htp]
        | some tp => simp only [longTakeProfit, htp, if_neg (hnotp tp htp)]
      | some sl =>
        cases htp : p.takeProfitPrice with
        | none => simp only [if_neg (hnosl sl hsl), longTakeProfit, htp]
        | some tp =>
          simp only [if_neg (hnosl sl hsl), longTakeProfit, htp, if_neg (hnotp tp htp)]
  · intro hS
    have hnl : ¬ p.positionType = "LONG" := by
      rw [hS]
      decide
    have hev : evalTrigger p high low = shortTrigger p high low := by
      unfold evalTrigger
      rw [if_neg hnl, if_pos hS]
    refine ⟨?_, ?_, ?_, ?_⟩
    · intro hliq
      rw [hev]
      unfold shortTrigger
      rw [if_neg hlev, if_pos hliq]
    · intro hliq sl hsl hhigh
      rw [hev]
      unfold shortTrigger
      rw [if_neg hlev, if_neg hliq, hsl]
      simp only [if_pos hhigh]
    · intro hliq hnosl tp htp hlow
      rw [hev]
      unfold shortTrigger
      rw [if_neg hlev, if_neg hliq]
      cases hsl : p.stopLossPrice with
      | none =>
        simp only [shortTakeProfit, htp, if_pos hlow]
      | some sl =>
        simp only [if_neg (hnosl sl hsl), shortTakeProfit, htp, if_pos hlow]
    · intro hliq hnosl hnotp
      rw [hev]
      unfold shortTrigger
      rw [if_neg hlev, if_neg hliq]
      cases hsl : p.stopLossPrice with
      | none =>
        cases htp : p.takeProfitPrice with
        | none => simp only [shortTakeProfit, htp]
        | some tp => simp only [shortTakeProfit, htp, if_neg (hnotp tp htp)]
      | some sl =>
        cases htp : p.takeProfitPrice with
        | none => simp only [if_neg (hnosl sl hsl), shortTakeProfit, htp]
        | some tp =>
          simp only [if_neg (hnosl sl hsl), shortTakeProfit, htp, if_neg (hnotp tp htp)]
  · intro st st' symbol positionType price reason h hne
    rcases closePosition_ok_shape st st' symbol positionType (some price) reason h with
      h' | ⟨q, exitPrice, hfind, hre, h1, h2, h3, hst⟩
    · exact absurd h' hne
    · have hep : exitPrice = price := by
        simp only [resolveExitPrice] at hre
        injection hre with hre
        exact hre.symm
      refine ⟨closeRow st symbol positionType exitPrice reason q, ?_, ?_⟩
      · rw [hst]
        rfl
      · rw [hep]
        rfl

/-- Claim C3 witness: the spec's own example — LONG, leverage 10, stop-loss
at 95, a low of 89 below the liquidation price 90 — exits by liquidation,
not by stop-loss. -/
theorem c3_trigger_priority_witness :
    evalTrigger positionC3 100 89 = Except.ok (some (("liquidation", (90 : ℚ)))) := by
  have h := (c3_trigger_priority positionC3 100 89 (by norm_num [positionC3])).1 rfl
  have h1 := h.1 (by norm_num [positionC3])
  exact h1.trans (by norm_num [positionC3])

/-- Anatomy of a successful `close_position` once the matched position is
known: the divisors were non-zero and the result is the canonical closed
state. -/
theorem closePosition_found_ok (st st' : FuturesState) (symbol positionType : String)
    (pr : ℚ) (reason : String) (q : Position)
    (hfind : st.openingPositions.find?
      (fun p => p.symbol == symbol && p.positionType == positionType) = some q)
    (h : closePosition st symbol positionType (some pr) reason = Except.ok st') :
    q.entryPrice ≠ 0 ∧ q.leverage ≠ 0 ∧ q.amount ≠ 0 ∧
    st' = closedState st symbol positionType pr reason q := by
  unfold closePosition at h
  rw [hfind] at h
  rw [show resolveExitPrice st symbol (some pr) = Except.ok pr from rfl] at h
  simp only [] at h
  by_cases hc1 : q.entryPrice = 0
  · rw [if_pos hc1] at h
    exact absurd h (by simp)
  · rw [if_neg hc1] at h
    by_cases hc2 : q.leverage = 0
    · rw [if_pos hc2] at h
      exact absurd h (by simp)
    · rw [if_neg hc2] at h
      by_cases hc3 : q.amount = 0
      · rw [if_pos hc3] at h
        exact absurd h (by simp)
      · rw [if_neg hc3] at h
        injection h with h
        refine ⟨hc1, hc2, hc3, ?_⟩
        rw [← h]
        rfl

/-! ### Claim C8: PnL arithmetic of close -/

/-- Claim C8: every close of an open position computes
`raw_pnl = (exit_price - entry_price) * (amount / entry_price)`, negated for
SHORT, minus the fee `amount * 0.001`, and
`pnl_pct = pnl / (amount / leverage) * 100`; in particular a LONG with entry
100, exit 110, amount 1000 nets 99 and the same SHORT nets -101. -/
theorem c8_close_pnl_formula :
    (∀ (st st' : FuturesState) (symbol positionType : String) (price : ℚ)
        (reason : String) (q : Position),
      st.openingPositions.find?
        (fun p => p.symbol == symbol && p.positionType == positionType) = some q →
      closePosition st symbol positionType (some price) reason = Except.ok st' →
      ∃ row : TradeRecord,
        st'.records = st.records ++ [row] ∧
        row.pnl = (if q.positionType = "LONG"
            then (price - q.entryPrice) * (q.amount / q.entryPrice)
            else -((price - q.entryPrice) * (q.amount / q.entryPrice)))
          - q.amount * (1 / 1000) ∧
        row.pnlPct = row.pnl / (q.amount / q.leverage) * 100) ∧
    (closePosition stateLong ("A") "LONG" (some 110) "manual_close").map
      (fun s => s.records.map (fun r => r.pnl)) = Except.ok [(99 : ℚ)] ∧
    (closePosition stateShort ("A") "SHORT" (some 110) "manual_close").map
      (fun s => s.records.map (fun r => r.pnl)) = Except.ok [(-101 : ℚ)] := by
  refine ⟨?_, ?_, ?_⟩
  case refine_2 =>
    rw [closePosition_some_eq stateLong ("A") "LONG" 110 ("manual_close") positionLong1000
      rfl (by norm_num [positionLong1000]) (by norm_num [positionLong1000])
      (by norm_num [positionLong1000])]
    norm_num [closedState, closeRow, closePnl, stateLong, positionLong1000, Except.map]
  case refine_3 =>
    rw [closePosition_some_eq stateShort ("A") "SHORT" 110 ("manual_close") positionShort1000
      rfl (by norm_num [positionShort1000]) (by norm_num [positionShort1000])
      (by norm_num [positionShort1000])]
    norm_num [closedState, closeRow, closePnl, stateShort, positionShort1000, Except.map,
      show ("SHORT" : String) ≠ "LONG" by decide]
  intro st st' symbol positionType price reason q hfind h
  obtain ⟨h1, h2, h3, hst⟩ :=
    closePosition_found_ok st st' symbol positionType price reason q hfind h
  refine ⟨closeRow st symbol positionType price reason q, ?_, rfl, rfl⟩
  rw [hst]
  rfl

/-- Claim C8 witness: the general close formula applied to the concrete LONG
example state (entry 100, exit 110, amount 1000, net 99). -/
theorem c8_close_pnl_formula_witness :
    ∃ row : TradeRecord,
      stateLongClosed.records = stateLong.records ++ [row] ∧ row.pnl = 99 := by
  obtain ⟨row, h1, h2, h3⟩ := c8_close_pnl_formula.1 stateLong stateLongClosed
    ("A") "LONG" 110 ("manual_close") positionLong1000 rfl
    (closePosition_some_eq stateLong ("A") "LONG" 110 ("manual_close") positionLong1000
      rfl (by norm_num [positionLong1000]) (by norm_num [positionLong1000])
      (by norm_num [positionLong1000]))
  refine ⟨row, h1, ?_⟩
  rw [h2]
  norm_num [positionLong1000]

/-! ### Unfolding lemmas for the risk-scan loop -/

theorem checkLoop_succ (fuel : ℕ) (st : FuturesState) (i : ℕ) (p : Position)
    (h : i < st.openingPositions.length)
    (hp : st.openingPositions.get ⟨i, h⟩ = p) :
    checkLoop (fuel + 1) st i =
      if p.entryTime = st.now then checkLoop fuel st (i + 1)
      else
        match checkOnePosition st p with
        | Except.error e => Except.error e
        | Except.ok st' => checkLoop fuel st' (i + 1) := by
  rw [checkLoop.eq_def]
  simp only [dif_pos h, hp]

theorem checkLoop_stop (fuel : ℕ) (st : FuturesState) (i : ℕ)
    (h : ¬ i < st.openingPositions.length) :
    checkLoop fuel st i = Except.ok st := by
  cases fuel with
  | zero => rfl
  | succ fuel' =>
    rw [checkLoop.eq_def]
    simp only [dif_neg h]

/-! ### Claim C2: the risk scan mutates the list it iterates -/

/-- Claim C2 (divergence witness): with two liquidatable positions open,
the tick scan closes the first and never evaluates the second — Python's
`for` loop advances its index over the list that `close_position` just
shortened — even though the second position's own trigger condition holds. -/
theorem c2_check_skips_next_position :
    (checkStopLossTakeProfit stateC2).map (fun s => s.openingPositions)
      = Except.ok [positionB] ∧
    (checkStopLossTakeProfit stateC2).map (fun s => s.records.map (fun r => r.symbol))
      = Except.ok [("A" : String)] ∧
    evalTrigger positionB 100 1 = Except.ok (some (("liquidation", (90 : ℚ)))) := by
  have hclose := closePosition_some_eq stateC2 ("A") "LONG" (100 * (1 - 1 / 10))
    "liquidation" positionA rfl (by norm_num [positionA]) (by norm_num [positionA])
    (by norm_num [positionA])
  have hpos1 : (closedState stateC2 ("A") "LONG" (100 * (1 - 1 / 10))
      "liquidation" positionA).openingPositions = [positionB] := by
    simp [closedState, stateC2, List.erase_cons]
  have htrig : evalTrigger positionA 100 1 =
      Except.ok (some (("liquidation", 100 * (1 - 1 / 10)))) := by
    unfold evalTrigger longTrigger
    rw [if_pos (show positionA.positionType = "LONG" from rfl)]
    rw [if_neg (show ¬ positionA.leverage = 0 by norm_num [positionA])]
    rw [if_pos (show (1 : ℚ) ≤ positionA.entryPrice * (1 - 1 / positionA.leverage)
      by norm_num [positionA])]
    norm_num [positionA]
  have hone : checkOnePosition stateC2 positionA =
      Except.ok (closedState stateC2 ("A") "LONG" (100 * (1 - 1 / 10))
        "liquidation" positionA) := by
    unfold checkOnePosition
    simp only [show stateC2.data = some snapshotAB from rfl]
    simp only [show snapshotAB.symbols.lookup positionA.symbol
      = some [("open", 100), ("high", 100), ("low", 1)] from rfl]
    simp only [show ([("open", (100 : ℚ)), ("high", 100), ("low", 1)]).lookup ("high")
      = some 100 from rfl]
    simp only [show ([("open", (100 : ℚ)), ("high", 100), ("low", 1)]).lookup ("low")
      = some 1 from rfl]
    simp only [htrig]
    simp only [show positionA.symbol = "A" from rfl,
      show positionA.positionType = "LONG" from rfl]
    exact hclose
  have h0 : (0 : ℕ) < stateC2.openingPositions.length := by
    norm_num [stateC2]
  have hcheck : checkStopLossTakeProfit stateC2 =
      Except.ok (closedState stateC2 ("A") "LONG" (100 * (1 - 1 / 10)) "liquidation" positionA) := by
    rw [show checkStopLossTakeProfit stateC2 = checkLoop (1 + 1) stateC2 0 from rfl]
    rw [checkLoop_succ 1 stateC2 0 positionA h0 rfl]
    rw [if_neg (show ¬ positionA.entryTime = stateC2.now by simp [stateC2, positionA])]
    rw [hone]
    simp only []
    apply checkLoop_stop
    rw [hpos1]
    norm_num
  refine ⟨?_, ?_, ?_⟩
  · rw [hcheck]
    simp only [Except.map]
    rw [hpos1]
  · rw [hcheck]
    norm_num [closedState, stateC2, closeRow, Except.map]
  · unfold evalTrigger longTrigger
    rw [if_pos (show positionB.positionType = "LONG" from rfl)]
    rw [if_neg (show ¬ positionB.leverage = 0 by norm_num [positionB])]
    rw [if_pos (show (1 : ℚ) ≤ positionB.entryPrice * (1 - 1 / positionB.leverage)
      by norm_num [positionB])]
    norm_num [positionB]

/-! ### Claim C5: exact close-time boundaries -/

/-- Claim C5: at a timestamp exactly equal to candle `i`'s close time, that
candle is the resolve-closed result and the last element of the returned
historical window, and when the timestamp is also the next candle's open
time, resolve-current picks the later candle `i + 1` (the highest index
whose interval contains the timestamp). -/
theorem c5_close_time_boundary
    (tfToMs : List (String × ℤ)) (tf : String) (dur : ℤ) (data : List Candle)
    (ts : ℤ) (i : ℕ) (limit : Option ℤ)
    (hdur : tfToMs.lookup tf = some dur) (hdpos : 0 ≤ dur)
    (hsort : data.Pairwise (fun a b => a.openTime < b.openTime))
    (hi : i < data.length)
    (hts : ts = (data.getD i default).openTime + dur)
    (hlim : ∀ l, limit = some l → 1 ≤ l) :
    isCandleClosed tfToMs (data.getD i default).openTime tf ts = true ∧
    binarySearchTimestamp tfToMs data ts tf = (i : ℤ) ∧
    (historicalWindow data ((i : ℕ) : ℤ) limit).getLast? = some (data.getD i default) ∧
    (i + 1 < data.length →
      (data.getD (i + 1) default).openTime = ts →
      findCurrentCandleIndex tfToMs data ts tf = ((i + 1 : ℕ) : ℤ)) := by
  refine ⟨?_, ?_, ?_, ?_⟩
  · rw [isCandleClosed_eq hdur]
    simp [hts]
  · exact binarySearch_at_close_time hdur hsort hi hts
  · exact historicalWindow_getLast data i limit hi hlim
  · intro h2 hb
    exact findCurrent_at_boundary hdur hdpos hsort h2 hb

/-- Claim C5 witness: the spec's end-to-end example — series with candles at
0 and 300000 on the 5-minute timeframe, query timestamp 300000: closed index
0 (whose candle ends the window) and current index 1. -/
theorem c5_close_time_boundary_witness :
    isCandleClosed tfRegistry 0 ("5m") 300000 = true ∧
    binarySearchTimestamp tfRegistry sampleSeries 300000 ("5m") = 0 ∧
    (historicalWindow sampleSeries 0 none).getLast? = some candle0 ∧
    findCurrentCandleIndex tfRegistry sampleSeries 300000 ("5m") = 1 := by
  have h := c5_close_time_boundary tfRegistry ("5m") 300000 sampleSeries 300000 0 none
    rfl (by norm_num)
    (by norm_num [sampleSeries, candle0, candle1, List.pairwise_cons])
    (by norm_num [sampleSeries])
    (by norm_num [sampleSeries, candle0])
    (by intro l hl; cases hl)
  obtain ⟨h1, h2, h3, h4⟩ := h
  refine ⟨?_, ?_, ?_, ?_⟩
  · exact h1
  · exact h2.trans (by norm_num)
  · exact h3.trans (by rfl)
  · have := h4 (by norm_num [sampleSeries]) (by norm_num [sampleSeries, candle1])
    exact this.trans (by norm_num)

/-! ### Claim C1: incremental vs binary resolve-closed -/

/-- Claim C1 (divergence witness): after a forward query at 600000 caches
index 1, a backward query at 400000 — inside the cached candle's interval,
so its close time 600000 exceeds the query — does NOT fall back to binary
search (the code compares the cached candle's OPEN time with the query):
the incremental search returns -1 although binary search finds index 0. -/
theorem c1_incremental_binary_divergence :
    incrementalSearchTimestamp tfRegistry sampleSeries 600000 ("5m") none = (1, some 1) ∧
    incrementalSearchTimestamp tfRegistry sampleSeries 400000 ("5m") (some 1) = (-1, some 1) ∧
    binarySearchTimestamp tfRegistry sampleSeries 400000 ("5m") = 0 ∧
    candle1.openTime + 300000 > 400000 := by
  refine ⟨by decide, by decide, ?_, by decide⟩
  show bsLoop (fun j => isCandleClosed tfRegistry (sampleSeries.getD j default).openTime
    ("5m") 400000) 0 ((sampleSeries.length : ℤ) - 1) (-1) = 0
  rw [bsLoop_step_true (by decide) (by decide)]
  rw [bsLoop_step_false (by decide) (by decide)]
  rw [bsLoop_exit (by decide)]
  decide

/-! ### Claim C6: unsupported timeframes and empty series -/

/-- Claim C6 counterexample: resolving an unsupported timeframe name is NOT
an error — the whole acquire call completes normally (the source prints a
warning and treats every candle as not closed), returning an empty window
for the unknown timeframe. -/
theorem c6_unsupported_timeframe_no_error :
    acquireSingleSymbolData (backDataAcquisitionInit tfRegistry ("5m") ["open", "high", "low"])
      "BTC" [("7m", sampleSeries)] 1000000000 none false
      = Except.ok (⟨1000000000, []⟩, [("7m", [])],
        backDataAcquisitionInit tfRegistry ("5m") ["open", "high", "low"]) ∧
    isCandleClosed tfRegistry 0 ("7m") 1000000000 = false ∧
    findCurrentCandleIndex tfRegistry sampleSeries 1000000000 ("7m") = -1 := by
  refine ⟨by decide, by decide, by decide⟩

/-- Claim C6 as amended: an unregistered timeframe name yields a warning and
"no closed/current candle" (indices -1, empty windows) rather than a raised
error, and acquire completes normally whenever the configured fields are
valid; an empty candle series likewise yields -1 and is not an error. -/
theorem c6_unsupported_timeframe_amended
    (tfToMs : List (String × ℤ)) (tf : String)
    (hmiss : tfToMs.lookup tf = none) :
    (∀ t ts, isCandleClosed tfToMs t tf ts = false) ∧
    (∀ data ts, binarySearchTimestamp tfToMs data ts tf = -1) ∧
    (∀ data ts cached, (incrementalSearchTimestamp tfToMs data ts tf cached).1 = -1) ∧
    (∀ data ts, findCurrentCandleIndex tfToMs data ts tf = -1) ∧
    (∀ (st : AcqState) symbol data ts limit fb,
      validateFields st.fields = Except.ok () →
      ∃ out, acquireSingleSymbolData st symbol data ts limit fb = Except.ok out) ∧
    (∀ ts tfAny (tfToMsAny : List (String × ℤ)) cached,
      binarySearchTimestamp tfToMsAny [] ts tfAny = -1 ∧
      findCurrentCandleIndex tfToMsAny [] ts tfAny = -1 ∧
      incrementalSearchTimestamp tfToMsAny [] ts tfAny cached = (-1, cached)) := by
  have hic : ∀ t ts, isCandleClosed tfToMs t tf ts = false := by
    intro t ts
    unfold isCandleClosed
    rw [hmiss]
  have hbin : ∀ data ts, binarySearchTimestamp tfToMs data ts tf = -1 := by
    intro data ts
    unfold binarySearchTimestamp
    by_cases hd : data.isEmpty
    · rw [if_pos hd]
    · rw [if_neg hd]
      exact bsLoop_const_false (fun j => hic _ _) _ _ _
  refine ⟨hic, hbin, ?_, ?_, ?_, ?_⟩
  · intro data ts cached
    unfold incrementalSearchTimestamp
    by_cases hd : data.isEmpty
    · rw [if_pos hd]
    · rw [if_neg hd]
      simp only []
      split
      · rw [hbin data ts]
        norm_num
      · rw [forwardScan_const_false (fun j => hic _ _)]
        norm_num
  · intro data ts
    unfold findCurrentCandleIndex
    by_cases hd : data.isEmpty
    · rw [if_pos hd]
    · rw [if_neg hd, hmiss]
  · intro st symbol data ts limit fb hval
    unfold acquireSingleSymbolData
    rw [hval]
    exact ⟨_, rfl⟩
  · intro ts tfAny tfToMsAny cached
    exact ⟨rfl, rfl, rfl⟩

/-- Claim C6 witness: the amended behaviour at the timeframe "7m" missing
from the 5-minute-only registry, and at an empty series. -/
theorem c6_unsupported_timeframe_witness :
    isCandleClosed tfRegistry 0 ("7m") 999 = false ∧
    binarySearchTimestamp tfRegistry sampleSeries 999 ("7m") = -1 ∧
    findCurrentCandleIndex tfRegistry sampleSeries 999 ("7m") = -1 ∧
    incrementalSearchTimestamp tfRegistry [] 5 ("7m") none = (-1, none) := by
  have h := c6_unsupported_timeframe_amended tfRegistry ("7m") rfl
  exact ⟨h.1 0 999, h.2.1 sampleSeries 999, h.2.2.2.1 sampleSeries 999,
    (h.2.2.2.2.2 5 ("7m") tfRegistry none).2.2⟩

/-! ### Claim C7: field validation happens at query time -/

/-- Claim C7 counterexample: constructing the engine with the unknown field
"xyz" succeeds and stores the bad configuration verbatim; the error is only
raised by the first acquire call. -/
theorem c7_construction_accepts_bad_field :
    backDataAcquisitionInit tfRegistry ("5m") ["open", "xyz"] =
      { tfToMs := tfRegistry, minTimeframe := "5m", fields := ["open", "xyz"],
        indexCache := [] } ∧
    acquireSingleSymbolData (backDataAcquisitionInit tfRegistry ("5m") ["open", "xyz"])
      "BTC" [("5m", sampleSeries)] 300000 none false
      = Except.error ("ValueError: Field not supported: xyz") := by
  exact ⟨rfl, by decide⟩

/-- Claim C7 as amended: an unknown field name in the configured field set
raises `ValueError` at the first acquire (query) call — for any query
arguments, even an empty data map — while construction stores the fields
unvalidated and raises nothing. -/
theorem c7_field_validation_at_query
    (tfToMs : List (String × ℤ)) (minTf : String) (fields : List String)
    (symbol : String) (data : List (String × List Candle)) (ts : ℤ)
    (limit : Option ℤ) (fb : Bool) (f : String)
    (hf : f ∈ fields) (hbad : fieldMap.lookup f = none) :
    (backDataAcquisitionInit tfToMs minTf fields).fields = fields ∧
    (backDataAcquisitionInit tfToMs minTf fields).indexCache = [] ∧
    ∃ e, acquireSingleSymbolData (backDataAcquisitionInit tfToMs minTf fields)
      symbol data ts limit fb = Except.error e := by
  refine ⟨rfl, rfl, ?_⟩
  have hsome : ∃ g, fields.find? (fun x => (fieldMap.lookup x).isNone) = some g := by
    rw [← Option.isSome_iff_exists, List.find?_isSome]
    exact ⟨f, hf, by rw [hbad]; rfl⟩
  obtain ⟨g, hg⟩ := hsome
  refine ⟨"ValueError: Field not supported: " ++ g, ?_⟩
  unfold acquireSingleSymbolData validateFields
  rw [show (backDataAcquisitionInit tfToMs minTf fields).fields = fields from rfl, hg]

/-- Claim C7 witness: the amended behaviour at the concrete bad field "xyz". -/
theorem c7_field_validation_witness :
    (backDataAcquisitionInit tfRegistry ("5m") ["open", "xyz"]).fields = ["open", "xyz"] ∧
    (backDataAcquisitionInit tfRegistry ("5m") ["open", "xyz"]).indexCache = [] ∧
    ∃ e, acquireSingleSymbolData (backDataAcquisitionInit tfRegistry ("5m") ["open", "xyz"])
      "BTC" [] 0 none false = Except.error e := by
  exact c7_field_validation_at_query tfRegistry ("5m") ["open", "xyz"] "BTC" [] 0 none false
    ("xyz") (by decide) rfl

/-! ### Claim C4: positions opened at the current tick survive the scan -/

theorem keyNe_symm :
    Symmetric (fun a b : Position =>
      (a.symbol, a.positionType) ≠ (b.symbol, b.positionType)) := by
  intro a b hab hba
  exact hab hba.symm

/-- A close issued for an evaluated (non-fresh) position never removes a
position whose entry time is the current `now`, and it preserves `now` and
the key-uniqueness of the ledger. -/
theorem closePosition_preserves_fresh (st st' : FuturesState) (q p : Position)
    (pr : Option ℚ) (reason : String)
    (huniq : keyUnique st.openingPositions)
    (hq : q ∈ st.openingPositions) (hqt : q.entryTime ≠ st.now)
    (h : closePosition st q.symbol q.positionType pr reason = Except.ok st')
    (hp : p ∈ st.openingPositions) (hpt : p.entryTime = st.now) :
    p ∈ st'.openingPositions ∧ st'.now = st.now ∧ keyUnique st'.openingPositions := by
  rcases closePosition_ok_shape st st' q.symbol q.positionType pr reason h with
    hst | ⟨q0, exitPrice, hfind, hre, h1, h2, h3, hst⟩
  · rw [hst]
    exact ⟨hp, rfl, huniq⟩
  · have hkey : q0.symbol = q.symbol ∧ q0.positionType = q.positionType := by
      have := List.find?_some hfind
      simp only [Bool.and_eq_true, beq_iff_eq] at this
      exact this
    have hpq : p ≠ q := by
      intro hpq
      rw [hpq] at hpt
      exact hqt hpt
    have hkeypq : (p.symbol, p.positionType) ≠ (q.symbol, q.positionType) :=
      List.Pairwise.forall keyNe_symm huniq hp hq hpq
    have hpq0 : p ≠ q0 := by
      intro hpq0
      apply hkeypq
      rw [hpq0, hkey.1, hkey.2]
    rw [hst]
    refine ⟨?_, rfl, ?_⟩
    · exact (List.mem_erase_of_ne hpq0).mpr hp
    · exact List.Pairwise.sublist (List.erase_sublist q0 st.openingPositions) huniq

/-- One scan step (for a non-skipped position) keeps fresh positions open. -/
theorem checkOnePosition_preserves_fresh (st st' : FuturesState) (q p : Position)
    (huniq : keyUnique st.openingPositions)
    (hq : q ∈ st.openingPositions) (hqt : q.entryTime ≠ st.now)
    (h : checkOnePosition st q = Except.ok st')
    (hp : p ∈ st.openingPositions) (hpt : p.entryTime = st.now) :
    p ∈ st'.openingPositions ∧ st'.now = st.now ∧ keyUnique st'.openingPositions := by
  unfold checkOnePosition at h
  cases hd : st.data with
  | none =>
    rw [hd] at h
    exact absurd h (by simp)
  | some d =>
    rw [hd] at h
    simp only [] at h
    cases hsym : d.symbols.lookup q.symbol with
    | none =>
      rw [hsym] at h
      exact absurd h (by simp)
    | some symbolFields =>
      rw [hsym] at h
      simp only [] at h
      cases hhigh : symbolFields.lookup ("high") with
      | none =>
        rw [hhigh] at h
        exact absurd h (by simp)
      | some high =>
        rw [hhigh] at h
        simp only [] at h
        cases hlow : symbolFields.lookup ("low") with
        | none =>
          rw [hlow] at h
          exact absurd h (by simp)
        | some low =>
          rw [hlow] at h
          simp only [] at h
          cases hev : evalTrigger q high low with
          | error e =>
            rw [hev] at h
            exact absurd h (by simp)
          | ok trig =>
            rw [hev] at h
            cases trig with
            | none =>
              simp only [] at h
              injection h with h
              rw [← h]
              exact ⟨hp, rfl, huniq⟩
            | some rp =>
              cases rp with
              | mk reason triggerPrice =>
                simp only [] at h
                exact closePosition_preserves_fresh st st' q p (some triggerPrice)
                  reason huniq hq hqt h hp hpt

/-- The whole scan keeps fresh positions open. -/
theorem checkLoop_preserves_fresh (p : Position) :
    ∀ (fuel : ℕ) (st : FuturesState) (i : ℕ) (st' : FuturesState),
      keyUnique st.openingPositions →
      checkLoop fuel st i = Except.ok st' →
      p ∈ st.openingPositions → p.entryTime = st.now →
      p ∈ st'.openingPositions := by
  intro fuel
  induction fuel with
  | zero =>
    intro st i st' hu h hp hpt
    injection h with h
    rw [← h]
    exact hp
  | succ fuel ih =>
    intro st i st' hu h hp hpt
    by_cases hlen : i < st.openingPositions.length
    · rw [checkLoop_succ fuel st i (st.openingPositions.get ⟨i, hlen⟩) hlen rfl] at h
      by_cases hskip : (st.openingPositions.get ⟨i, hlen⟩).entryTime = st.now
      · rw [if_pos hskip] at h
        exact ih st (i + 1) st' hu h hp hpt
      · rw [if_neg hskip] at h
        cases hone : checkOnePosition st (st.openingPositions.get ⟨i, hlen⟩) with
        | error e =>
          rw [hone] at h
          exact absurd h (by simp)
        | ok st1 =>
          rw [hone] at h
          obtain ⟨hp1, hnow1, hu1⟩ := checkOnePosition_preserves_fresh st st1
            (st.openingPositions.get ⟨i, hlen⟩) p hu (List.get_mem _ _ _) hskip hone hp hpt
          exact ih st1 (i + 1) st' hu1 h hp1 (by rw [hnow1]; exact hpt)
    · rw [checkLoop_stop (fuel + 1) st i hlen] at h
      injection h with h
      rw [← h]
      exact hp

/-- Claim C4: the risk evaluator never closes a position on the tick it was
opened — a position whose `entry_time` equals the evaluator's current `now`
is skipped and stays open through the scan, also through a whole
`update_data` tick (under the spec's one-position-per-(symbol, side)
invariant). -/
theorem c4_no_same_tick_close :
    (∀ (st st' : FuturesState) (p : Position),
      keyUnique st.openingPositions →
      checkStopLossTakeProfit st = Except.ok st' →
      p ∈ st.openingPositions → p.entryTime = st.now →
      p ∈ st'.openingPositions) ∧
    (∀ (st st' : FuturesState) (d : TickData) (formattedNow : String) (p : Position),
      keyUnique st.openingPositions →
      updateData st d formattedNow = Except.ok st' →
      p ∈ st.openingPositions → p.entryTime = st.now →
      p ∈ st'.openingPositions) := by
  constructor
  · intro st st' p hu h hp hpt
    exact checkLoop_preserves_fresh p _ st 0 st' hu h hp hpt
  · intro st st' d formattedNow p hu h hp hpt
    unfold updateData at h
    simp only [] at h
    cases hc : checkStopLossTakeProfit { st with data := some d } with
    | error e =>
      rw [hc] at h
      exact absurd h (by simp)
    | ok st2 =>
      rw [hc] at h
      injection h with h
      have hmem := checkLoop_preserves_fresh p _ { st with data := some d } 0 st2 hu hc hp hpt
      rw [← h]
      exact hmem

/-- Claim C4 witness: a position opened at the current tick, in a snapshot
whose low is far below its liquidation price, survives the scan. -/
theorem c4_no_same_tick_close_witness :
    positionFresh ∈ stateC4.openingPositions ∧
    checkStopLossTakeProfit stateC4 = Except.ok stateC4 := by
  have hcheck : checkStopLossTakeProfit stateC4 = Except.ok stateC4 := by
    rw [show checkStopLossTakeProfit stateC4 = checkLoop (0 + 1) stateC4 0 from rfl]
    rw [checkLoop_succ 0 stateC4 0 positionFresh (by simp [stateC4]) rfl]
    rw [if_pos (show positionFresh.entryTime = stateC4.now from rfl)]
    rfl
  refine ⟨?_, hcheck⟩
  exact c4_no_same_tick_close.1 stateC4 stateC4 positionFresh
    (by simp [keyUnique, stateC4]) hcheck (by simp [stateC4]) rfl

/-! ### Claim C10: the tick scan is only total when the snapshot covers every
open symbol -/

/-- The trigger evaluation never raises when the leverage is non-zero. -/
theorem evalTrigger_ok (q : Position) (high low : ℚ) (hlev : q.leverage ≠ 0) :
    ∃ o, evalTrigger q high low = Except.ok o := by
  unfold evalTrigger longTrigger shortTrigger
  simp only [if_neg hlev]
  repeat' split
  all_goals exact ⟨_, rfl⟩

/-- `close_position` at an explicit price never raises when no open position
has a zero entry price, leverage or amount. -/
theorem closePosition_ok_of_good (st : FuturesState) (symbol positionType : String)
    (pr : ℚ) (reason : String)
    (hall : ∀ q ∈ st.openingPositions, q.entryPrice ≠ 0 ∧ q.leverage ≠ 0 ∧ q.amount ≠ 0) :
    ∃ st', closePosition st symbol positionType (some pr) reason = Except.ok st' := by
  cases hfind : st.openingPositions.find?
      (fun p => p.symbol == symbol && p.positionType == positionType) with
  | none => exact ⟨st, closePosition_none_eq st symbol positionType (some pr) reason hfind⟩
  | some q =>
    have hq := hall q (List.mem_of_find?_eq_some hfind)
    exact ⟨_, closePosition_some_eq st symbol positionType pr reason q hfind
      hq.1 hq.2.1 hq.2.2⟩

/-- One scan step succeeds when the position's symbol is present with its
`high`/`low` fields and no open position has degenerate numbers, and it
only shrinks the ledger while preserving `data` and `now`. -/
theorem checkOnePosition_ok (st : FuturesState) (d : TickData) (q : Position)
    (hd : st.data = some d)
    (hsym : ∃ fl, d.symbols.lookup q.symbol = some fl ∧
      (∃ hv, fl.lookup ("high") = some hv) ∧ (∃ lv, fl.lookup ("low") = some lv))
    (hlev : q.leverage ≠ 0)
    (hall : ∀ r ∈ st.openingPositions, r.entryPrice ≠ 0 ∧ r.leverage ≠ 0 ∧ r.amount ≠ 0) :
    ∃ st', checkOnePosition st q = Except.ok st' ∧ st'.data = some d ∧
      st'.now = st.now ∧ st'.openingPositions.Sublist st.openingPositions := by
  obtain ⟨fl, hfl, ⟨hv, hhv⟩, ⟨lv, hlv⟩⟩ := hsym
  obtain ⟨o, ho⟩ := evalTrigger_ok q hv lv hlev
  unfold checkOnePosition
  rw [hd]
  simp only []
  rw [hfl]
  simp only []
  rw [hhv]
  simp only []
  rw [hlv]
  simp only []
  rw [ho]
  cases o with
  | none => exact ⟨st, rfl, hd, rfl, List.Sublist.refl _⟩
  | some rp =>
    cases rp with
    | mk reason triggerPrice =>
      obtain ⟨st', hclose⟩ := closePosition_ok_of_good st q.symbol q.positionType
        triggerPrice reason hall
      refine ⟨st', hclose, ?_⟩
      rcases closePosition_ok_shape st st' q.symbol q.positionType (some triggerPrice)
        reason hclose with hst | ⟨q0, ep, hfind, hre, h1, h2, h3, hst⟩
      · rw [hst]
        exact ⟨hd, rfl, List.Sublist.refl _⟩
      · rw [hst]
        exact ⟨hd, rfl, List.erase_sublist q0 st.openingPositions⟩

/-- The scan loop succeeds whenever every open position has sound numbers
and every non-skipped position's symbol is present with `high` and `low`. -/
theorem checkLoop_ok (d : TickData) :
    ∀ (fuel : ℕ) (st : FuturesState) (i : ℕ),
      st.data = some d →
      (∀ q ∈ st.openingPositions, q.entryPrice ≠ 0 ∧ q.leverage ≠ 0 ∧ q.amount ≠ 0 ∧
        (q.entryTime ≠ st.now → ∃ fl, d.symbols.lookup q.symbol = some fl ∧
          (∃ hv, fl.lookup ("high") = some hv) ∧ (∃ lv, fl.lookup ("low") = some lv))) →
      ∃ st', checkLoop fuel st i = Except.ok st' := by
  intro fuel
  induction fuel with
  | zero =>
    intro st i hd hall
    exact ⟨st, rfl⟩
  | succ fuel ih =>
    intro st i hd hall
    by_cases hlen : i < st.openingPositions.length
    · rw [checkLoop_succ fuel st i (st.openingPositions.get ⟨i, hlen⟩) hlen rfl]
      by_cases hskip : (st.openingPositions.get ⟨i, hlen⟩).entryTime = st.now
      · rw [if_pos hskip]
        exact ih st (i + 1) hd hall
      · rw [if_neg hskip]
        have hq := hall (st.openingPositions.get ⟨i, hlen⟩) (List.get_mem _ _ _)
        obtain ⟨st1, hone, hdata1, hnow1, hsub1⟩ := checkOnePosition_ok st d
          (st.openingPositions.get ⟨i, hlen⟩) hd (hq.2.2.2 hskip) hq.2.1
          (fun r hr => ⟨(hall r hr).1, (hall r hr).2.1, (hall r hr).2.2.1⟩)
        rw [hone]
        simp only []
        apply ih st1 (i + 1)
        · exact hdata1
        · intro q hqmem
          have hqst := hall q (hsub1.subset hqmem)
          refine ⟨hqst.1, hqst.2.1, hqst.2.2.1, ?_⟩
          rw [hnow1]
          exact hqst.2.2.2
    · exact ⟨st, checkLoop_stop (fuel + 1) st i hlen⟩

/-- When every position before index `i0` is skipped and position `i0`'s
symbol is missing from the snapshot, the scan raises `KeyError`. -/
theorem checkLoop_keyerror (d : TickData) (i0 : ℕ) :
    ∀ (fuel i : ℕ) (st : FuturesState),
      st.data = some d →
      i ≤ i0 →
      i0 < st.openingPositions.length →
      (∀ j, i ≤ j → j < i0 → (st.openingPositions.getD j default).entryTime = st.now) →
      (st.openingPositions.getD i0 default).entryTime ≠ st.now →
      d.symbols.lookup (st.openingPositions.getD i0 default).symbol = none →
      i0 - i < fuel →
      checkLoop fuel st i =
        Except.error ("KeyError: " ++ (st.openingPositions.getD i0 default).symbol) := by
  intro fuel
  induction fuel with
  | zero =>
    intro i st hd hii hi0 hskips hne hmiss hfuel
    omega
  | succ fuel ih =>
    intro i st hd hii hi0 hskips hne hmiss hfuel
    have hlen : i < st.openingPositions.length := by omega
    have hget : st.openingPositions.get ⟨i, hlen⟩ = st.openingPositions.getD i default := by
      rw [List.getD_eq_getElem _ _ hlen]
      rfl
    rw [checkLoop_succ fuel st i (st.openingPositions.getD i default) hlen hget]
    by_cases heq : i = i0
    · subst heq
      rw [if_neg hne]
      have hone : checkOnePosition st (st.openingPositions.getD i default) =
          Except.error ("KeyError: " ++ (st.openingPositions.getD i default).symbol) := by
        unfold checkOnePosition
        rw [hd]
        simp only []
        rw [hmiss]
      rw [hone]
    · have hii0 : i < i0 := by omega
      rw [if_pos (hskips i (le_refl i) hii0)]
      exact ih (i + 1) st hd (by omega) hi0
        (fun j h1 h2 => hskips j (by omega) h2) hne hmiss (by omega)

/-- Claim C10: the tick scan is total exactly under the precondition that
(besides sound position numbers) every non-skipped open position's symbol is
present in the snapshot with `high` and `low` fields; when the first
non-skipped position's symbol is absent — as happens when `acquire_data`
found no current candle for it — the scan raises an uncaught `KeyError`
instead of skipping the position. -/
theorem c10_missing_symbol_keyerror :
    (∀ (st : FuturesState) (d : TickData),
      st.data = some d →
      (∀ q ∈ st.openingPositions, q.entryPrice ≠ 0 ∧ q.leverage ≠ 0 ∧ q.amount ≠ 0 ∧
        (q.entryTime ≠ st.now → ∃ fl, d.symbols.lookup q.symbol = some fl ∧
          (∃ hv, fl.lookup ("high") = some hv) ∧ (∃ lv, fl.lookup ("low") = some lv))) →
      ∃ st', checkStopLossTakeProfit st = Except.ok st') ∧
    (∀ (st : FuturesState) (d : TickData) (i0 : ℕ),
      st.data = some d →
      i0 < st.openingPositions.length →
      (∀ j, j < i0 → (st.openingPositions.getD j default).entryTime = st.now) →
      (st.openingPositions.getD i0 default).entryTime ≠ st.now →
      d.symbols.lookup (st.openingPositions.getD i0 default).symbol = none →
      checkStopLossTakeProfit st =
        Except.error ("KeyError: " ++ (st.openingPositions.getD i0 default).symbol)) := by
  constructor
  · intro st d hd hall
    exact checkLoop_ok d st.openingPositions.length st 0 hd hall
  · intro st d i0 hd hi0 hskips hne hmiss
    exact checkLoop_keyerror d i0 st.openingPositions.length 0 st hd (by omega) hi0
      (fun j h1 h2 => hskips j h2) hne hmiss (by omega)

/-- Claim C10 witness: a single position on symbol "C", absent from the
snapshot, makes the scan raise `KeyError: C`. -/
theorem c10_missing_symbol_keyerror_witness :
    checkStopLossTakeProfit stateC10 = Except.error ("KeyError: " ++ "C") := by
  have h := c10_missing_symbol_keyerror.2 stateC10 snapshotAB 0 rfl
    (by simp [stateC10]) (by intro j hj; omega) (by simp [stateC10, positionMissing])
    (by decide)
  exact h.trans (by rfl)

/-! ### Claim C9: the margin-in-use invariant -/

theorem sumMargin_append (ps : List Position) (q : Position) :
    sumMargin (ps ++ [q]) = sumMargin ps + q.amount / q.leverage := by
  simp [sumMargin]

theorem sumMargin_erase (ps : List Position) (q : Position) (hq : q ∈ ps) :
    sumMargin ps = q.amount / q.leverage + sumMargin (ps.erase q) := by
  have hperm : ps.Perm (q :: ps.erase q) := List.perm_cons_erase hq
  have hsum := (hperm.map (fun p => p.amount / p.leverage)).sum_eq
  simpa [sumMargin] using hsum

theorem closePosition_inv (st st' : FuturesState) (symbol positionType : String)
    (price : Option ℚ) (reason : String)
    (hinv : ledgerInv st)
    (h : closePosition st symbol positionType price reason = Except.ok st') :
    ledgerInv st' := by
  rcases closePosition_ok_shape st st' symbol positionType price reason h with
    hst | ⟨q, ep, hfind, hre, h1, h2, h3, hst⟩
  · rw [hst]
    exact hinv
  · rw [hst]
    refine ⟨hinv.1, ?_⟩
    show (if st.useBalance then st.usingBalance - q.amount / q.leverage
      else st.usingBalance) = sumMargin (st.openingPositions.erase q)
    rw [if_pos hinv.1]
    have hqmem := List.mem_of_find?_eq_some hfind
    have := sumMargin_erase st.openingPositions q hqmem
    rw [hinv.2, this]
    ring

theorem acceptOrder_inv (st st' : FuturesState) (symbol positionType : String)
    (leverage amount : ℚ) (sl tp : Option ℚ)
    (hinv : ledgerInv st)
    (h : acceptOrder st symbol positionType leverage amount sl tp = Except.ok st') :
    ledgerInv st' := by
  unfold acceptOrder at h
  by_cases hz : leverage = 0
  · rw [if_pos hz] at h
    exact absurd h (by simp)
  · rw [if_neg hz] at h
    by_cases hb : st.balance - st.usingBalance < amount / leverage
    · rw [if_pos hb] at h
      injection h with h
      rw [← h]
      exact hinv
    · rw [if_neg hb] at h
      cases hp : getPrice st symbol with
      | error e =>
        rw [hp] at h
        exact absurd h (by simp)
      | ok price =>
        rw [hp] at h
        simp only [] at h
        by_cases hpt : positionType = "LONG" ∨ positionType = "SHORT"
        · rw [if_pos hpt] at h
          injection h with h
          rw [← h]
          refine ⟨hinv.1, ?_⟩
          show (if st.useBalance then st.usingBalance + amount / leverage
            else st.usingBalance) = sumMargin (st.openingPositions ++ [_])
          rw [if_pos hinv.1, sumMargin_append, hinv.2]
        · rw [if_neg hpt] at h
          exact absurd h (by simp)

theorem placeMarketOrder_inv (st st' : FuturesState) (symbol positionType : String)
    (leverage amount : ℚ) (sl tp : Option ℚ)
    (hinv : ledgerInv st)
    (h : placeMarketOrder st symbol positionType leverage amount sl tp = Except.ok st') :
    ledgerInv st' := by
  unfold placeMarketOrder at h
  cases hg1 : stopLossGuardRejects st symbol positionType sl with
  | error e =>
    rw [hg1] at h
    exact absurd h (by simp)
  | ok b1 =>
    rw [hg1] at h
    cases b1 with
    | true =>
      simp only [] at h
      injection h with h
      rw [← h]
      exact hinv
    | false =>
      simp only [] at h
      cases hg2 : takeProfitGuardRejects st symbol positionType tp with
      | error e =>
        rw [hg2] at h
        exact absurd h (by simp)
      | ok b2 =>
        rw [hg2] at h
        cases b2 with
        | true =>
          simp only [] at h
          injection h with h
          rw [← h]
          exact hinv
        | false =>
          simp only [] at h
          exact acceptOrder_inv st st' symbol positionType leverage amount sl tp hinv h

theorem checkOnePosition_inv (st st' : FuturesState) (q : Position)
    (hinv : ledgerInv st) (h : checkOnePosition st q = Except.ok st') :
    ledgerInv st' := by
  unfold checkOnePosition at h
  cases hd : st.data with
  | none =>
    rw [hd] at h
    exact absurd h (by simp)
  | some d =>
    rw [hd] at h
    simp only [] at h
    cases hsym : d.symbols.lookup q.symbol with
    | none =>
      rw [hsym] at h
      exact absurd h (by simp)
    | some symbolFields =>
      rw [hsym] at h
      simp only [] at h
      cases hhigh : symbolFields.lookup ("high") with
      | none =>
        rw [hhigh] at h
        exact absurd h (by simp)
      | some high =>
        rw [hhigh] at h
        simp only [] at h
        cases hlow : symbolFields.lookup ("low") with
        | none =>
          rw [hlow] at h
          exact absurd h (by simp)
        | some low =>
          rw [hlow] at h
          simp only [] at h
          cases hev : evalTrigger q high low with
          | error e =>
            rw [hev] at h
            exact absurd h (by simp)
          | ok trig =>
            rw [hev] at h
            cases trig with
            | none =>
              simp only [] at h
              injection h with h
              rw [← h]
              exact hinv
            | some rp =>
              cases rp with
              | mk reason triggerPrice =>
                simp only [] at h
                exact closePosition_inv st st' q.symbol q.positionType
                  (some triggerPrice) reason hinv h

theorem checkLoop_inv :
    ∀ (fuel : ℕ) (st : FuturesState) (i : ℕ) (st' : FuturesState),
      ledgerInv st → checkLoop fuel st i = Except.ok st' → ledgerInv st' := by
  intro fuel
  induction fuel with
  | zero =>
    intro st i st' hinv h
    injection h with h
    rw [← h]
    exact hinv
  | succ fuel ih =>
    intro st i st' hinv h
    by_cases hlen : i < st.openingPositions.length
    · rw [checkLoop_succ fuel st i (st.openingPositions.get ⟨i, hlen⟩) hlen rfl] at h
      by_cases hskip : (st.openingPositions.get ⟨i, hlen⟩).entryTime = st.now
      · rw [if_pos hskip] at h
        exact ih st (i + 1) st' hinv h
      · rw [if_neg hskip] at h
        cases hone : checkOnePosition st (st.openingPositions.get ⟨i, hlen⟩) with
        | error e =>
          rw [hone] at h
          exact absurd h (by simp)
        | ok st1 =>
          rw [hone] at h
          exact ih st1 (i + 1) st'
            (checkOnePosition_inv st st1 (st.openingPositions.get ⟨i, hlen⟩) hinv hone) h
    · rw [checkLoop_stop (fuel + 1) st i hlen] at h
      injection h with h
      rw [← h]
      exact hinv

theorem applyOp_inv (st st' : FuturesState) (op : LedgerOp)
    (hinv : ledgerInv st) (h : applyOp st op = Except.ok st') : ledgerInv st' := by
  cases op with
  | tick d formattedNow =>
    unfold applyOp updateData at h
    simp only [] at h
    cases hc : checkStopLossTakeProfit { st with data := some d } with
    | error e =>
      rw [hc] at h
      exact absurd h (by simp)
    | ok st2 =>
      rw [hc] at h
      injection h with h
      have hinv2 : ledgerInv st2 :=
        checkLoop_inv _ { st with data := some d } 0 st2 ⟨hinv.1, hinv.2⟩ hc
      rw [← h]
      exact ⟨hinv2.1, hinv2.2⟩
  | openOrder symbol positionType leverage amount sl tp =>
    exact placeMarketOrder_inv st st' symbol positionType leverage amount sl tp hinv h
  | close symbol positionType price reason =>
    exact closePosition_inv st st' symbol positionType price reason hinv h

theorem runOps_inv :
    ∀ (ops : List LedgerOp) (st st' : FuturesState),
      ledgerInv st → runOps st ops = Except.ok st' → ledgerInv st' := by
  intro ops
  induction ops with
  | nil =>
    intro st st' hinv h
    injection h with h
    rw [← h]
    exact hinv
  | cons op rest ih =>
    intro st st' hinv h
    unfold runOps at h
    cases ha : applyOp st op with
    | error e =>
      rw [ha] at h
      exact absurd h (by simp)
    | ok st1 =>
      rw [ha] at h
      exact ih st1 st' (applyOp_inv st st1 op hinv ha) h

/-- Claim C9: after any driver-visible sequence of ticks, market orders and
closes from a fresh ledger, the margin in use equals the sum of
`amount / leverage` over the open positions; an order the balance cannot
cover is rejected as a no-op (never clamped); and an accepted order implied
`margin_in_use ≤ balance` just before it. -/
theorem c9_margin_invariant :
    (∀ (b0 : ℚ) (ops : List LedgerOp) (st' : FuturesState),
      runOps (initState b0) ops = Except.ok st' →
      st'.usingBalance = sumMargin st'.openingPositions) ∧
    (∀ (st st' : FuturesState) (symbol positionType : String) (leverage amount : ℚ)
        (sl tp : Option ℚ),
      st.balance - st.usingBalance < amount / leverage →
      placeMarketOrder st symbol positionType leverage amount sl tp = Except.ok st' →
      st' = st) ∧
    (∀ (st st' : FuturesState) (symbol positionType : String) (leverage amount : ℚ)
        (sl tp : Option ℚ),
      1 ≤ leverage → 0 ≤ amount →
      placeMarketOrder st symbol positionType leverage amount sl tp = Except.ok st' →
      st' ≠ st →
      amount / leverage ≤ st.balance - st.usingBalance ∧
        st.usingBalance ≤ st.balance) := by
  refine ⟨?_, ?_, ?_⟩
  · intro b0 ops st' h
    exact (runOps_inv ops (initState b0) st' ⟨rfl, by simp [initState, sumMargin]⟩ h).2
  · intro st st' symbol positionType leverage amount sl tp hb h
    unfold placeMarketOrder at h
    cases hg1 : stopLossGuardRejects st symbol positionType sl with
    | error e =>
      rw [hg1] at h
      exact absurd h (by simp)
    | ok b1 =>
      rw [hg1] at h
      cases b1 with
      | true =>
        simp only [] at h
        injection h with h
        exact h.symm
      | false =>
        simp only [] at h
        cases hg2 : takeProfitGuardRejects st symbol positionType tp with
        | error e =>
          rw [hg2] at h
          exact absurd h (by simp)
        | ok b2 =>
          rw [hg2] at h
          cases b2 with
          | true =>
            simp only [] at h
            injection h with h
            exact h.symm
          | false =>
            simp only [] at h
            unfold acceptOrder at h
            by_cases hz : leverage = 0
            · rw [if_pos hz] at h
              exact absurd h (by simp)
            · rw [if_neg hz] at h
              rw [if_pos hb] at h
              injection h with h
              exact h.symm
  · intro st st' symbol positionType leverage amount sl tp hlev hamt h hne
    have hmain : ¬ st.balance - st.usingBalance < amount / leverage := by
      intro hb
      unfold placeMarketOrder at h
      cases hg1 : stopLossGuardRejects st symbol positionType sl with
      | error e =>
        rw [hg1] at h
        exact absurd h (by simp)
      | ok b1 =>
        rw [hg1] at h
        cases b1 with
        | true =>
          simp only [] at h
          injection h with h
          exact hne h.symm
        | false =>
          simp only [] at h
          cases hg2 : takeProfitGuardRejects st symbol positionType tp with
          | error e =>
            rw [hg2] at h
            exact absurd h (by simp)
          | ok b2 =>
            rw [hg2] at h
            cases b2 with
            | true =>
              simp only [] at h
              injection h with h
              exact hne h.symm
            | false =>
              simp only [] at h
              unfold acceptOrder at h
              by_cases hz : leverage = 0
              · rw [if_pos hz] at h
                exact absurd h (by simp)
              · rw [if_neg hz] at h
                rw [if_pos hb] at h
                injection h with h
                exact hne h.symm
    have hml : amount / leverage ≤ st.balance - st.usingBalance := not_lt.mp hmain
    have hnn : 0 ≤ amount / leverage := by
      apply div_nonneg hamt
      linarith
    exact ⟨hml, by linarith⟩

/-- Claim C9 witness: one tick then one accepted order from a fresh ledger
of balance 1000 leaves margin `100 / 10` in use — the margin of the one open
position. -/
theorem c9_margin_invariant_witness :
    stateC9.usingBalance = sumMargin stateC9.openingPositions := by
  have hopen : placeMarketOrder stateTick ("A") "LONG" 10 100 none none =
      Except.ok stateC9 := by
    unfold placeMarketOrder stopLossGuardRejects takeProfitGuardRejects acceptOrder
    simp only []
    rw [if_neg (show ¬ (10 : ℚ) = 0 by norm_num)]
    rw [if_neg (show ¬ stateTick.balance - stateTick.usingBalance < 100 / 10
      by norm_num [stateTick])]
    rw [show getPrice stateTick ("A") = Except.ok 100 from rfl]
    simp only []
    rw [if_pos (Or.inl trivial)]
    rfl
  have hrun : runOps (initState 1000) opsC9 = Except.ok stateC9 := by
    rw [show runOps (initState 1000) opsC9 =
      runOps stateTick [LedgerOp.openOrder ("A") "LONG" 10 100 none none] from rfl]
    show (match applyOp stateTick (LedgerOp.openOrder ("A") "LONG" 10 100 none none) with
      | Except.error e => Except.error e
      | Except.ok st1 => runOps st1 []) = Except.ok stateC9
    rw [show applyOp stateTick (LedgerOp.openOrder ("A") "LONG" 10 100 none none) =
      placeMarketOrder stateTick ("A") "LONG" 10 100 none none from rfl]
    rw [hopen]
    rfl
  exact c9_margin_invariant.1 1000 opsC9 stateC9 hrun

end BackTest
